import Mathlib

/-!
Verification development for the backup/restore path-layout core
(`src/path.rs`, `src/layout.rs`, `src/prelude.rs`).

Modelling conventions:
* The code is compiled per platform via `cfg`; the path functions below embed
  the non-Windows (`cfg(not(target_os = "windows"))`) build, which is the
  platform the file-path claims are settled on.  The platform-selection
  constants themselves (`WINDOWS`, `MAC`, `LINUX`, `CASE_INSENSITIVE_OS`) are
  embedded separately with an explicit `Platform` parameter.
* Rust `String` becomes Lean `String`; the handful of `str` operations the
  code uses (`replace`, `replacen`, `starts_with`, per-character separator
  normalisation) are defined below over `String.data` so that every theorem
  can be settled by evaluation.
* `std::collections::HashMap` becomes an association list with unique keys
  (`List (String × String)`); insertion appends, key lookup scans.
* Filesystem effects (existence checks, directory walks, copies, removals)
  are inputs: an `Env` record carries the working directory, home directory,
  the random-number stream, and an existence oracle, and the backup/restore
  operations additionally take explicit outcome oracles for each fallible
  syscall.  `std::fs::canonicalize` inside `interpret` is modelled by its
  own fallback branch (manual dot-segment resolution), with which it agrees
  on symlink-free paths.
-/

namespace Ludusavi

/-- Rebuild a `String` from a character list (inverse of `String.data`). -/
def ofChars (l : List Char) : String := String.mk l

/-- Rust `str::replace` (replace every non-overlapping occurrence, scanning
left to right), specialised to a fixed non-empty pattern `p :: ps`.  The
`fuel` argument makes the recursion structural; it is called with the input
length, which suffices because every step consumes at least one
character. -/
def replaceAllGo (p : Char) (ps rep : List Char) : Nat → List Char → List Char
  | _, [] => []
  | 0, l => l
  | fuel + 1, c :: rest =>
    if p == c && ps.isPrefixOf rest then
      rep ++ replaceAllGo p ps rep fuel (rest.drop ps.length)
    else
      c :: replaceAllGo p ps rep fuel rest

/-- Rust `str::replace` on strings.  The code never calls it with an empty
pattern, for which this model returns the input unchanged. -/
def replaceAll (s pat rep : String) : String :=
  match pat.data with
  | [] => s
  | p :: ps => ofChars (replaceAllGo p ps rep.data s.data.length s.data)

/-- Rust `str::starts_with`. -/
def strStartsWith (s p : String) : Bool := p.data.isPrefixOf s.data

/-- Rust `str::replacen(pat, rep, 1)`: replace only the first occurrence,
specialised to a fixed non-empty pattern `p :: ps`. -/
def replaceFirstGo (p : Char) (ps rep : List Char) : List Char → List Char
  | [] => []
  | c :: rest =>
    if p == c && ps.isPrefixOf rest then
      rep ++ rest.drop ps.length
    else
      c :: replaceFirstGo p ps rep rest

/-- Rust `str::replacen(pat, rep, 1)` on strings. -/
def replaceFirst (s pat rep : String) : String :=
  match pat.data with
  | [] => s
  | p :: ps => ofChars (replaceFirstGo p ps rep.data s.data)

/-- Whether `pat` occurs anywhere in `s` (Rust `str::contains`). -/
def strContains (s pat : String) : Bool :=
  (List.range (s.data.length + 1)).any (fun i => pat.data.isPrefixOf (s.data.drop i))

/-- Ambient process state: current directory, home directory, the stream of
`rand::random::<u16>()` draws, and the filesystem-existence oracle used by
`game_folder`'s collision check. -/
structure Env where
  cwd : String
  home : String
  rand : Nat → Nat
  exi : String → Bool

/-- The `path.rs` `parse_home` helper: expand a leading `~`. -/
def parse_home (env : Env) (path : String) : String :=
  if path == "~" || strStartsWith path "~/" || strStartsWith path "~\\" then
    env.home ++ ofChars (path.data.drop 1)
  else path

/-- The `path.rs` `normalize` helper on the non-Windows build: expand `~`,
then replace the atypical separator `\` by the typical one `/`. -/
def normalize (env : Env) (path : String) : String :=
  ofChars ((parse_home env path).data.map (fun c => if c == '\\' then '/' else c))

/-- One `std::path::Component` as seen by `parse_dots` on a non-Windows
platform (prefix components do not occur). -/
inductive PathComp where
  | rootDir
  | parentDir
  | normal (seg : List Char)
deriving DecidableEq

/-- Split a character list at every occurrence of `sep`. -/
def splitSepGo (sep : Char) : List Char → List Char → List (List Char)
  | [], acc => [acc.reverse]
  | c :: cs, acc =>
    if c == sep then acc.reverse :: splitSepGo sep cs []
    else splitSepGo sep cs (c :: acc)

/-- Split a character list at every occurrence of `sep` (n separators give
n+1 pieces, empty pieces included). -/
def splitSep (sep : Char) (l : List Char) : List (List Char) := splitSepGo sep l []

/-- Classify one piece of a `/`-split path as a component; empty pieces and
`.` pieces are skipped, exactly as `std::path::Components` normalises them
away (a leading `.` component is emitted by std but skipped by `parse_dots`
anyway, so dropping it here is observationally equal). -/
def pieceToComp (p : List Char) : Option PathComp :=
  if p = [] then none
  else if p = ['.'] then none
  else if p = ['.', '.'] then some PathComp.parentDir
  else some (PathComp.normal p)

/-- The components of a path string on a non-Windows platform. -/
def strComponents (s : String) : List PathComp :=
  (if s.data.head? = some '/' then [PathComp.rootDir] else []) ++
    (splitSep '/' s.data).filterMap pieceToComp

/-- Model of the `std::path::PathBuf` accumulator used by `parse_dots`:
an absolute flag plus the list of normal segments.  `push`ing an absolute
component resets the buffer to the root, `pop` drops the last segment. -/
structure PBuf where
  abs : Bool
  segs : List (List Char)
deriving DecidableEq

/-- Interpret a basis string as the starting `PathBuf` (the bases supplied by
the code are already separator-normalised). -/
def PBuf.ofString (s : String) : PBuf :=
  ⟨s.data.head? = some '/', (splitSep '/' s.data).filterMap pieceToComp |>.filterMap
    (fun c => match c with | PathComp.normal seg => some seg | _ => none)⟩

/-- Apply one component to the accumulator, as in the `parse_dots` loop
(`RootDir` pushes the root, `ParentDir` pops, `Normal` pushes). -/
def PBuf.pushComp (b : PBuf) : PathComp → PBuf
  | PathComp.rootDir => ⟨true, []⟩
  | PathComp.parentDir => ⟨b.abs, b.segs.dropLast⟩
  | PathComp.normal seg => ⟨b.abs, b.segs ++ [seg]⟩

/-- Join segments with `/`. -/
def joinSegs : List (List Char) → List Char
  | [] => []
  | [s] => s
  | s :: rest => s ++ '/' :: joinSegs rest

/-- Render the accumulator back to a string (`render_pathbuf`). -/
def PBuf.toStr (b : PBuf) : String :=
  ofChars ((if b.abs then ['/'] else []) ++ joinSegs b.segs)

/-- The `path.rs` `parse_dots` function: manual `.`/`..` resolution anchored
at `basis`. -/
def parse_dots (path basis : String) : String :=
  ((strComponents path).foldl PBuf.pushComp (PBuf.ofString basis)).toStr

/-- Whether a path string is absolute on a non-Windows platform. -/
def isAbsolute (s : String) : Bool := s.data.head? = some '/'

/-- Model of `std::path::PathBuf::join` with the bases the code supplies:
append a separator (unless already present) and the relative path. -/
def joinPath (b s : String) : String :=
  if b.data = [] then s
  else if b.data.getLast? = some '/' then b ++ s
  else b ++ "/" ++ s

/-- The `path.rs` `interpret` function on the non-Windows build: normalize,
absolutize against the basis (or the working directory), resolve dots.
OS canonicalization is modelled by its fallback branch (`parse_dots`), with
which it agrees on symlink-free paths; no long-path prefix is added off
Windows. -/
def interpretRaw (env : Env) (raw : String) (basis : Option String) : String :=
  let normalized := normalize env raw
  let b := match basis with | none => env.cwd | some x => x
  let absolutized := if isAbsolute normalized then normalized else joinPath b normalized
  let dedotted := parse_dots absolutized b
  ofChars (dedotted.data.map (fun c => if c == '\\' then '/' else c))

/-- The `path.rs` `render` helper: strip the local UNC prefix and force
forward slashes (this function is not `cfg`-gated in the source). -/
def renderStr (s : String) : String :=
  ofChars ((replaceAll s "\\\\?\\" "").data.map (fun c => if c == '\\' then '/' else c))

/-- The `StrictPath` wrapper from `path.rs`: raw text plus optional basis. -/
structure StrictPath where
  raw : String
  basis : Option String
deriving DecidableEq

/-- `StrictPath::new`. -/
def StrictPath.new (raw : String) : StrictPath := ⟨raw, none⟩

/-- `StrictPath::relative`. -/
def StrictPath.relative (raw : String) (basis : Option String) : StrictPath := ⟨raw, basis⟩

/-- `StrictPath::interpret`. -/
def StrictPath.interpret (p : StrictPath) (env : Env) : String :=
  interpretRaw env p.raw p.basis

/-- `StrictPath::render`. -/
def StrictPath.render (p : StrictPath) (env : Env) : String :=
  renderStr (p.interpret env)

/-- `StrictPath::joined`. -/
def StrictPath.joined (p : StrictPath) (env : Env) (other : String) : StrictPath :=
  StrictPath.new (p.interpret env ++ "/" ++ other)

/-- `StrictPath::split_drive` on the non-Windows build: the drive designator
is always empty and a single leading `/` is stripped from the raw value. -/
def StrictPath.split_drive (p : StrictPath) : String × String :=
  ("", if strStartsWith p.raw "/" then ofChars (p.raw.data.drop 1) else p.raw)

/-- The per-game `IndividualMapping` from `layout.rs`; `drives` models the
`HashMap<String, String>` (token to original drive) as an association list
with unique keys, insertion appending. -/
structure IndividualMapping where
  name : String
  drives : List (String × String)
deriving DecidableEq

/-- `IndividualMapping::new`. -/
def IndividualMapping.new (name : String) : IndividualMapping := ⟨name, []⟩

/-- `HashMap::contains_key` on the association-list model. -/
def contains_key (m : List (String × String)) (k : String) : Bool :=
  m.any (fun kv => kv.1 == k)

/-- `HashMap::get` on the association-list model. -/
def lookup_key (m : List (String × String)) (k : String) : Option String :=
  (m.find? (fun kv => kv.1 == k)).map (fun kv => kv.2)

/-- `reversed_drives().get(drive)`: look a value up and return its key.
The reversed `HashMap` keeps one arbitrary key per duplicated value; this
model keeps the first, which agrees with it whenever values are unique (the
only situation `drive_folder_name` itself creates). -/
def reversed_get (m : List (String × String)) (v : String) : Option String :=
  (m.find? (fun kv => kv.2 == v)).map (fun kv => kv.1)

/-- The token `format!("drive-{}", n)`. -/
def mkTok (n : Nat) : String := "drive-" ++ toString n

/-- The allocation loop of `drive_folder_name`: iterate `n` over `2..1000`
holding the current candidate `key` (initially `drive-1`); if `key` is not
yet a map key, insert `(key, drive)` and stop, otherwise advance `key` to
`drive-n`.  When the iterator is exhausted the final `key` (`drive-999`) is
returned without being checked or inserted. -/
def dfnLoop (drive : String) : List Nat → String → List (String × String) →
    String × List (String × String)
  | [], key, drives => (key, drives)
  | n :: ns, key, drives =>
    if contains_key drives key then dfnLoop drive ns (mkTok n) drives
    else (key, drives ++ [(key, drive)])

/-- `IndividualMapping::drive_folder_name`, returning the token together
with the updated mapping (the Rust method mutates `self`). -/
def IndividualMapping.drive_folder_name (m : IndividualMapping) (drive : String) :
    String × IndividualMapping :=
  match reversed_get m.drives drive with
  | some mapped => (mapped, m)
  | none =>
    let r := dfnLoop drive (List.range' 2 998) "drive-1" m.drives
    (r.1, ⟨m.name, r.2⟩)

/-- A `drive_folder_name` call that records its drive: it either finds the
drive already mapped or actually inserts a fresh token.  The only way a call
can fail to progress is the allocation loop falling through with every token
`drive-1` … `drive-998` taken. -/
def dfnProgressed (m : IndividualMapping) (d : String) : Prop :=
  reversed_get m.drives d ≠ none ∨ (m.drive_folder_name d).2.drives ≠ m.drives

/-- One game of the `OverallMapping` from `layout.rs`. -/
structure OverallMappingGame where
  drives : List (String × String)
  base : StrictPath
deriving DecidableEq

/-- The `OverallMapping` from `layout.rs`: the in-memory index of games,
modelled as an association list from game name to its entry.  The source
rebuilds it by walking the backup root; here it is layout state. -/
structure OverallMapping where
  games : List (String × OverallMappingGame)
deriving DecidableEq

/-- `OverallMapping.games.get` on the association-list model. -/
def lookup_game (gs : List (String × OverallMappingGame)) (name : String) :
    Option OverallMappingGame :=
  (gs.find? (fun kv => kv.1 == name)).map (fun kv => kv.2)

/-- The `BackupLayout` from `layout.rs`. -/
structure BackupLayout where
  base : StrictPath
  mapping : OverallMapping
deriving DecidableEq

/-- The characters replaced by `BackupLayout::escape_folder_name`'s chain of
`str::replace` calls (each maps a single character to `SAFE = "_"`). -/
def unsafeChar (c : Char) : Bool :=
  c == '\\' || c == '/' || c == ':' || c == '*' || c == '?' || c == '"' ||
    c == '<' || c == '>' || c == '|' || c == (Char.ofNat 0)

/-- `BackupLayout::escape_folder_name`: `.` and `..` have their dots
escaped; any other name has every filesystem-unsafe character replaced by
`_`. -/
def escape_folder_name (name : String) : String :=
  if name == "." || name == ".." then
    ofChars (name.data.map (fun c => if c == '.' then '_' else c))
  else
    ofChars (name.data.map (fun c => if unsafeChar c then '_' else c))

/-- The check `safe_name.matches(SAFE).count() == safe_name.len()`: true
exactly when every byte of the name is `_` (vacuously true for the empty
name, as in the source where both sides are 0). -/
def allSafeChars (s : String) : Bool := s.data.all (fun c => c == '_')

/-- `BackupLayout::generate_total_rename` applied to one `u16` draw. -/
def generate_total_rename (r : Nat) : String :=
  "ludusavi-renamed-" ++ toString (r % 65536)

/-- The collision-retry loop of `game_folder`: keep regenerating while the
joined candidate exists; `left` counts the remaining regenerations before
the `attempts > 1000` escape hatch settles on the fixed collision name, and
`idx` indexes the random stream (`rand::random::<u16>()` draws). -/
def renameLoop (env : Env) (baseI : String) : Nat → Nat → String → String
  | idx, left, safe =>
    if env.exi (baseI ++ "/" ++ safe) then
      match left with
      | 0 => "ludusavi-renamed-collision"
      | left' + 1 => renameLoop env baseI (idx + 1) left' (generate_total_rename (env.rand idx))
    else safe

/-- The folder-name selection of `BackupLayout::game_folder` for a game that
is not in the loaded mapping: escape, and on an all-`_` result fall back to
a random collision-checked rename.  `rngStart` is the position in the random
stream at which this call starts drawing. -/
def game_folder_name (env : Env) (baseI : String) (game_name : String) (rngStart : Nat) :
    String :=
  let safe_name := escape_folder_name game_name
  if allSafeChars safe_name then
    renameLoop env baseI (rngStart + 1) 1000 (generate_total_rename (env.rand rngStart))
  else safe_name

/-- `BackupLayout::game_folder`: a game already in the mapping keeps its
base folder; otherwise the backup base is joined with the escaped (or
synthetic) name. -/
def BackupLayout.game_folder (layout : BackupLayout) (env : Env) (game_name : String)
    (rngStart : Nat) : StrictPath :=
  match lookup_game layout.mapping.games game_name with
  | some game => game.base
  | none =>
    StrictPath.new (layout.base.interpret env ++ "/" ++
      game_folder_name env (layout.base.interpret env) game_name rngStart)

/-- `BackupLayout::game_file`: split the original file's drive, obtain its
token (updating the mapping), and place the file at `token/remainder`
relative to the game folder. -/
def BackupLayout.game_file (env : Env) (game_folder : StrictPath)
    (original_file : StrictPath) (mapping : IndividualMapping) :
    StrictPath × IndividualMapping :=
  let d := original_file.split_drive
  let r := mapping.drive_folder_name d.1
  (StrictPath.relative (r.1 ++ "/" ++ d.2) (some (game_folder.interpret env)), r.2)

/-- `BackupLayout::game_mapping_file`. -/
def BackupLayout.game_mapping_file (env : Env) (game_folder : StrictPath) : StrictPath :=
  game_folder.joined env "mapping.yaml"

/-- The `ScannedFile` record from `prelude.rs`. -/
structure ScannedFile where
  path : StrictPath
  size : Nat
  original_path : Option StrictPath
deriving DecidableEq

/-- The `ScanInfo` record from `prelude.rs`; the `HashSet`s become lists of
pairwise-distinct elements. -/
structure ScanInfo where
  game_name : String
  found_files : List ScannedFile
  found_registry_keys : List String
  registry_file : Option StrictPath
deriving DecidableEq

/-- The `BackupInfo` record from `prelude.rs`. -/
structure BackupInfo where
  failed_files : List ScannedFile
  failed_registry : List String
deriving DecidableEq

/-- `ScanInfo::found_anything`. -/
def ScanInfo.found_anything (info : ScanInfo) : Bool :=
  !info.found_files.isEmpty || !info.found_registry_keys.isEmpty

/-- `ScanInfo::sum_bytes`: the `u64` subtraction of failed bytes from found
bytes is modelled on `Nat` (truncating, as claim C10 is exactly that it
never truncates for a `BackupInfo` produced from the same scan). -/
def ScanInfo.sum_bytes (info : ScanInfo) (backup_info : Option BackupInfo) : Nat :=
  (info.found_files.map (fun x => x.size)).sum -
    (match backup_info with
     | some b => (b.failed_files.map (fun x => x.size)).sum
     | none => 0)

/-- The per-drive-directory body of `BackupLayout::restorable_files`: one
entry of the depth-1 walk of the game folder, given as the subdirectory
name together with the inner walk's files as (path relative to the
subdirectory, size).  The walk itself is filesystem input; the name lookup,
the `raw_file.replace(&raw_drive_dir, drive_mapping)` reconstruction of the
original path and the `continue`s are translated from the source.  (The
walk's root entry — the game folder itself — is only relevant when the
folder's own name collides with a drive token and is not modelled.) -/
def restorable_entry_files (layout : BackupLayout) (game_name : String) (gfI : String)
    (entry : String × List (String × Nat)) : List ScannedFile :=
  let raw_drive_dir := gfI ++ "/" ++ entry.1
  match lookup_game layout.mapping.games game_name with
  | none => []
  | some x =>
    match lookup_key x.drives entry.1 with
    | none => []
    | some drive_mapping =>
      entry.2.map (fun rf =>
        let raw_file := raw_drive_dir ++ "/" ++ rf.1
        { path := StrictPath.new raw_file, size := rf.2,
          original_path := some (StrictPath.new (replaceAll raw_file raw_drive_dir drive_mapping)) })

/-- `BackupLayout::restorable_files` over the walk results of the game
folder (`gfI` is the game folder's interpreted path). -/
def BackupLayout.restorable_files (layout : BackupLayout) (game_name : String)
    (gfI : String) (walk : List (String × List (String × Nat))) : List ScannedFile :=
  (walk.map (restorable_entry_files layout game_name gfI)).flatten

/-- A redirect entry as consumed by `game_file_restoration_target` (the
defining `config.rs` is outside `src/`; only the `source` and `target`
fields are used). -/
structure RedirectConfig where
  source : StrictPath
  target : StrictPath
deriving DecidableEq

/-- `game_file_restoration_target` from `prelude.rs`: fold the redirects
over the rendered original target, substituting the first occurrence of a
matching non-empty source prefix, then report the redirected path together
with the original one when they differ. -/
def game_file_restoration_target (env : Env) (original_target : StrictPath)
    (redirects : List RedirectConfig) : StrictPath × Option StrictPath :=
  let redirected := redirects.foldl
    (fun acc redirect =>
      let s := redirect.source.render env
      let t := redirect.target.render env
      if !(s == "") && !(t == "") && strStartsWith acc s then replaceFirst acc s t else acc)
    (original_target.render env)
  let redirected_target := StrictPath.new redirected
  if original_target.render env ≠ redirected_target.render env then
    (redirected_target, some original_target)
  else (original_target, none)

/-- The compile-time platform selection of `prelude.rs` (`cfg!` macros),
made explicit. -/
inductive Platform where
  | windows
  | mac
  | linux
  | other
deriving DecidableEq

/-- The constant `WINDOWS = cfg!(target_os = "windows")`. -/
def WINDOWS (p : Platform) : Bool := p == Platform.windows

/-- The constant `MAC = cfg!(target_os = "macos")`. -/
def MAC (p : Platform) : Bool := p == Platform.mac

/-- The constant `LINUX = cfg!(target_os = "linux")`. -/
def LINUX (p : Platform) : Bool := p == Platform.linux

/-- The constant `CASE_INSENSITIVE_OS = WINDOWS || MAC`: whether the current
platform's native filesystem is case-insensitive. -/
def CASE_INSENSITIVE_OS (p : Platform) : Bool := WINDOWS p || MAC p

/-- The `glob::MatchOptions` record set up by `glob_any`. -/
structure MatchOptions where
  case_sensitive : Bool
  require_literal_separator : Bool
  require_literal_leading_dot : Bool
deriving DecidableEq

/-- The options `glob_any` passes to `glob::glob_with`, exactly as written
in the source: `case_sensitive: CASE_INSENSITIVE_OS`,
`require_literal_separator: true`, `require_literal_leading_dot: false`. -/
def glob_any_options (p : Platform) : MatchOptions :=
  { case_sensitive := CASE_INSENSITIVE_OS p
    require_literal_separator := true
    require_literal_leading_dot := false }

/-- Outcomes of the fallible filesystem calls made by `back_up_game`:
the `target_game.remove()`, the `create_dir`, and the per-file
`create_parent_dir` and `fs::copy` calls (keyed by interpreted paths). -/
structure BackupOracle where
  removeOk : Bool
  createDirOk : Bool
  createParentOk : String → Bool
  copyOk : String → String → Bool

/-- The per-file loop of `back_up_game`: with preparation failed every file
goes to `failed_files`; otherwise the layout target is computed (updating
the fresh mapping), the parent directory is created and the copy attempted,
a failure of either marking just that file failed.  Returns the failed
files, the final mapping, and the successfully performed copies. -/
def backUpFiles (env : Env) (orc : BackupOracle) (unable : Bool) (target_game : StrictPath) :
    List ScannedFile → IndividualMapping →
    List ScannedFile × IndividualMapping × List (String × String)
  | [], m => ([], m, [])
  | file :: rest, m =>
    if unable then
      let r := backUpFiles env orc unable target_game rest m
      (file :: r.1, r.2.1, r.2.2)
    else
      let tf := BackupLayout.game_file env target_game file.path m
      if !(orc.createParentOk (tf.1.interpret env)) then
        let r := backUpFiles env orc unable target_game rest tf.2
        (file :: r.1, r.2.1, r.2.2)
      else if !(orc.copyOk (file.path.interpret env) (tf.1.interpret env)) then
        let r := backUpFiles env orc unable target_game rest tf.2
        (file :: r.1, r.2.1, r.2.2)
      else
        let r := backUpFiles env orc unable target_game rest tf.2
        (r.1, r.2.1, (file.path.interpret env, tf.1.interpret env) :: r.2.2)

/-- The result of one `back_up_game` call: the returned `BackupInfo`,
whether the fresh mapping was persisted, the final mapping, and the copies
performed. -/
structure BackupOutcome where
  backup_info : BackupInfo
  mapping_saved : Bool
  mapping : IndividualMapping
  copies : List (String × String)

/-- `back_up_game` on the non-Windows build (the registry loop is compiled
out, so `failed_registry` stays empty; `found_registry_keys` still counts
towards `found_anything`).  `unable` mirrors the preparation `match`: when
anything was found, the game folder is removed and recreated, and a failure
of either step sets `unable_to_prepare`.  The mapping is saved exactly when
something was found and preparation succeeded. -/
def back_up_game (env : Env) (orc : BackupOracle) (info : ScanInfo) (name : String)
    (layout : BackupLayout) (rngStart : Nat) : BackupOutcome :=
  let target_game := layout.game_folder env name rngStart
  let mapping := IndividualMapping.new name
  let unable := info.found_anything && !(orc.removeOk && orc.createDirOk)
  let r := backUpFiles env orc unable target_game info.found_files mapping
  { backup_info := ⟨r.1, []⟩
    mapping_saved := info.found_anything && !unable
    mapping := r.2.1
    copies := r.2.2 }

/-- Outcomes of the fallible filesystem calls made by `restore_game`: the
per-target `create_parent_dir` and the per-attempt `fs::copy` (keyed by the
interpreted source path and the attempt index `i` of the `0..99` loop). -/
structure RestoreOracle where
  createParentOk : String → Bool
  copyAttempt : String → Nat → Bool

/-- The per-file loop of `restore_game`: files without an original path are
skipped; otherwise redirects give the effective target, the parent
directory is created, and the copy is attempted up to 99 times, exhaustion
marking the file failed.  Returns the failed files and performed copies. -/
def restoreFiles (env : Env) (orc : RestoreOracle) (redirects : List RedirectConfig) :
    List ScannedFile → List ScannedFile × List (String × String)
  | [] => ([], [])
  | file :: rest =>
    match file.original_path with
    | none => restoreFiles env orc redirects rest
    | some original_path =>
      let target := (game_file_restoration_target env original_path redirects).1
      if !(orc.createParentOk (target.interpret env)) then
        let r := restoreFiles env orc redirects rest
        (file :: r.1, r.2)
      else if (List.range 99).any (orc.copyAttempt (file.path.interpret env)) then
        let r := restoreFiles env orc redirects rest
        (r.1, (file.path.interpret env, target.interpret env) :: r.2)
      else
        let r := restoreFiles env orc redirects rest
        (file :: r.1, r.2)

/-- `restore_game` on the non-Windows build (the registry restoration is
compiled out and tracks no failures anyway). -/
def restore_game (env : Env) (orc : RestoreOracle) (info : ScanInfo)
    (redirects : List RedirectConfig) : BackupInfo × List (String × String) :=
  let r := restoreFiles env orc redirects info.found_files
  (⟨r.1, []⟩, r.2)

/-- Lexicographic order on character lists (the key order of the ordered
map; agrees with Rust's `String` order on the ASCII tokens at hand). -/
def charListLt : List Char → List Char → Bool
  | [], [] => false
  | [], _ :: _ => true
  | _ :: _, [] => false
  | a :: as, b :: bs =>
    if a.toNat < b.toNat then true
    else if b.toNat < a.toNat then false
    else charListLt as bs

/-- Insert a pair into a key-sorted association list. -/
def sortedInsert (kv : String × String) : List (String × String) → List (String × String)
  | [] => [kv]
  | x :: xs => if charListLt kv.1.data x.1.data then kv :: x :: xs else x :: sortedInsert kv xs

/-- Sort an association list by key (the order `ordered_map` serializes
in). -/
def sortByKey : List (String × String) → List (String × String)
  | [] => []
  | x :: xs => sortedInsert x (sortByKey xs)

/-- Modelled from the spec: `IndividualMapping::serialize`.  The source
delegates to `serde_yaml` with the `crate::serialization::ordered_map`
serializer, both outside `src/`; per the spec the output is a structured
document with fields `name: string` and `drives: ordered-map<string,
string>`, the map ordered by key.  The document is modelled as one
`name: <name>` line, one `drives:` line, and one two-space-indented
`<token>: <drive>` line per entry in key order. -/
def IndividualMapping.serialize (m : IndividualMapping) : String :=
  "name: " ++ m.name ++ "\ndrives:\n" ++
    ofChars (((sortByKey m.drives).map
      (fun kv => ("  " ++ kv.1 ++ ": " ++ kv.2 ++ "\n").data)).flatten)

/-- Parse one `  <token>: <drive>` line of the mapping document (the token
may not contain a colon; the drive value may). -/
def parseEntryLine (l : List Char) : Option (String × String) :=
  match l with
  | ' ' :: ' ' :: rest =>
    match rest.drop ((rest.takeWhile (fun c => c != ':')).length) with
    | ':' :: ' ' :: v => some (ofChars (rest.takeWhile (fun c => c != ':')), ofChars v)
    | _ => none
  | _ => none

/-- Parse the entry lines of the mapping document: every line but the last
split piece is an entry, and the document ends with a final newline (an
empty last piece). -/
def parseEntryLines : List (List Char) → Option (List (String × String))
  | [] => none
  | [last] => if last.isEmpty then some [] else none
  | x :: xs =>
    match parseEntryLine x, parseEntryLines xs with
    | some kv, some r => some (kv :: r)
    | _, _ => none

/-- Parse the split lines of the mapping document: a `name: ` line, a
`drives:` line, then the entries. -/
def parseLines : List (List Char) → Except Unit IndividualMapping
  | l1 :: l2 :: rest =>
    if ("name: ".data).isPrefixOf l1 && l2 == "drives:".data then
      match parseEntryLines rest with
      | some ds => Except.ok ⟨ofChars (l1.drop 6), ds⟩
      | none => Except.error ()
    else Except.error ()
  | _ => Except.error ()

/-- Modelled from the spec: `IndividualMapping::load_from_string`, the
inverse direction of the persisted mapping document (the source delegates
to `serde_yaml`, outside `src/`).  A document that does not match the
structure produced by `serialize` is a distinguished `Except.error ()`,
mirroring the `Result<Self, ()>` of the source; the parser is a total
function, so no input can make it panic. -/
def IndividualMapping.load_from_string (content : String) :
    Except Unit IndividualMapping :=
  parseLines (splitSep '\n' content.data)

/-- `IndividualMapping::load`: an absent file (`!file.is_file()`) is the
distinguished error.  Otherwise the file is read with
`std::fs::read_to_string(..).unwrap()`: the read's outcome is filesystem
input (`read = none` when it fails, e.g. on non-UTF-8 bytes or an I/O
error, `some content` on success), and the `unwrap` turns a failing read
into a panic — modelled by the outer `none` of the result, while
`some r` is a normal return of `r`.  A successful read parses the
content. -/
def IndividualMapping.load (is_file : Bool) (read : Option String) :
    Option (Except Unit IndividualMapping) :=
  if !is_file then some (Except.error ())
  else
    match read with
    | none => none
    | some content => some (IndividualMapping.load_from_string content)

/-- Whether a string is newline-free. -/
def noNL (s : String) : Bool := s.data.all (fun c => c != '\n')

/-- A valid mapping for the persistence round-trip: newline-free name,
newline- and colon-free tokens, newline-free drive values, and the drives
list already in the canonical key order the serializer emits (`HashMap`
equality in the source is order-insensitive; the association-list model
compares in canonical order). -/
def validMapping (m : IndividualMapping) : Bool :=
  noNL m.name &&
    m.drives.all (fun kv =>
      noNL kv.1 && noNL kv.2 && kv.1.data.all (fun c => c != ':')) &&
    sortByKey m.drives == m.drives

/-- A clean path segment: nonempty, not a dot segment, and free of
backslashes (so separator normalisation leaves it alone). -/
def cleanSeg (p : List Char) : Bool :=
  !p.isEmpty && p != ['.'] && p != ['.', '.'] && p.all (fun c => c != '\\')

/-- A clean absolute path: a leading `/` followed by clean `/`-separated
segments (no doubled or trailing separators, no dot segments, no
backslashes).  On such paths `interpret` and `render` act as the
identity. -/
def CleanAbs (s : String) : Bool :=
  s.data.head? == some '/' && (splitSep '/' s.data.tail).all cleanSeg

/-- A clean relative path: nonempty, not starting with `/` or `~`, made of
clean `/`-separated segments. -/
def cleanRel (s : String) : Bool :=
  !s.data.isEmpty && s.data.head? != some '/' && s.data.head? != some '~' &&
    (splitSep '/' s.data).all cleanSeg

/-- A fixed ambient state used by the concrete instances below: root
working directory, no existing files, a constant random stream. -/
def env0 : Env := ⟨"/", "/root", fun _ => 0, fun _ => false⟩

/-- An ambient state whose random stream is the identity, exhibiting two
successive `rand::random` draws that differ. -/
def envSeq : Env := ⟨"/", "/root", fun i => i, fun _ => false⟩

/-- A drives map in which every token `drive-1` … `drive-998` is already
taken (all mapping to the empty drive designator), saturating
`drive_folder_name`'s allocation loop. -/
def fullDrives : List (String × String) :=
  (List.range' 1 998).map (fun i => (mkTok i, ""))

/-- A mapping instance whose drives map is saturated. -/
def mFull : IndividualMapping := ⟨"g", fullDrives⟩

theorem eq_cons_of_head? {α : Type} {l : List α} {a : α} (h : l.head? = some a) :
    l = a :: l.tail := by
  cases l <;> simp_all

theorem splitSepGo_ne_nil (sep : Char) (l acc : List Char) : splitSepGo sep l acc ≠ [] := by
  induction l generalizing acc with
  | nil => simp [splitSepGo]
  | cons c cs ih =>
    simp only [splitSepGo]
    split
    · simp
    · exact ih _

theorem splitSepGo_sep_append (sep : Char) (u v acc : List Char) :
    splitSepGo sep (u ++ sep :: v) acc = splitSepGo sep u acc ++ splitSep sep v := by
  induction u generalizing acc with
  | nil => simp [splitSepGo, splitSep]
  | cons c cs ih =>
    simp only [List.cons_append, splitSepGo]
    split
    · simp [ih]
    · exact ih _

theorem splitSep_sep_append (sep : Char) (u v : List Char) :
    splitSep sep (u ++ sep :: v) = splitSep sep u ++ splitSep sep v :=
  splitSepGo_sep_append sep u v []

theorem joinSegs_cons (a : List Char) (rest : List (List Char)) (h : rest ≠ []) :
    joinSegs (a :: rest) = a ++ '/' :: joinSegs rest := by
  match rest with
  | [] => contradiction
  | b :: bs => rfl

theorem joinSegs_splitSepGo (l acc : List Char) :
    joinSegs (splitSepGo '/' l acc) = acc.reverse ++ l := by
  induction l generalizing acc with
  | nil => simp [splitSepGo, joinSegs]
  | cons c cs ih =>
    simp only [splitSepGo]
    by_cases h : c = '/'
    · subst h
      rw [if_pos (by simp)]
      rw [joinSegs_cons _ _ (splitSepGo_ne_nil _ _ _), ih]
      simp
    · rw [if_neg (by simp [h])]
      rw [ih]
      simp

theorem joinSegs_splitSep (l : List Char) : joinSegs (splitSep '/' l) = l := by
  simpa using joinSegs_splitSepGo l []

theorem splitSepGo_no_sep (sep : Char) (l acc : List Char) (hacc : sep ∉ acc) :
    ∀ piece ∈ splitSepGo sep l acc, sep ∉ piece := by
  induction l generalizing acc with
  | nil =>
    intro piece hp
    simp only [splitSepGo, List.mem_singleton] at hp
    subst hp
    simpa using hacc
  | cons c cs ih =>
    intro piece hp
    simp only [splitSepGo] at hp
    by_cases h : c = sep
    · subst h
      rw [if_pos (by simp)] at hp
      rcases List.mem_cons.mp hp with h1 | h2
      · subst h1; simpa using hacc
      · exact ih [] (by simp) piece h2
    · rw [if_neg (by simp [h])] at hp
      refine ih (c :: acc) ?_ piece hp
      intro hmem
      rcases List.mem_cons.mp hmem with h1 | h2
      · exact h h1.symm
      · exact hacc h2

theorem splitSep_no_sep (sep : Char) (l : List Char) :
    ∀ piece ∈ splitSep sep l, sep ∉ piece :=
  splitSepGo_no_sep sep l [] (by simp)

theorem splitSep_ne_nil (sep : Char) (l : List Char) : splitSep sep l ≠ [] :=
  splitSepGo_ne_nil sep l []

theorem joinSegs_append (xs ys : List (List Char)) (hx : xs ≠ []) (hy : ys ≠ []) :
    joinSegs (xs ++ ys) = joinSegs xs ++ '/' :: joinSegs ys := by
  induction xs with
  | nil => contradiction
  | cons a as ih =>
    cases as with
    | nil =>
      rw [List.singleton_append, joinSegs_cons a ys hy]
      rfl
    | cons b bs =>
      rw [List.cons_append, joinSegs_cons a ((b :: bs) ++ ys) (by simp),
        joinSegs_cons a (b :: bs) (by simp), ih (by simp)]
      simp

theorem mem_joinSegs (c : Char) (l : List (List Char)) (h : c ∈ joinSegs l) :
    c = '/' ∨ ∃ p ∈ l, c ∈ p := by
  induction l with
  | nil => simp [joinSegs] at h
  | cons a as ih =>
    cases as with
    | nil =>
      simp only [joinSegs] at h
      right
      exact ⟨a, by simp, h⟩
    | cons b bs =>
      rw [joinSegs_cons a (b :: bs) (by simp)] at h
      rcases List.mem_append.mp h with h1 | h2
      · right; exact ⟨a, by simp, h1⟩
      · rcases List.mem_cons.mp h2 with h3 | h4
        · left; exact h3
        · rcases ih h4 with h5 | ⟨p, hp, hcp⟩
          · left; exact h5
          · right; exact ⟨p, by simp [hp], hcp⟩

theorem mapSelf {α : Type} (f : α → α) (l : List α) (h : ∀ x ∈ l, f x = x) :
    l.map f = l := by
  induction l with
  | nil => rfl
  | cons a as ih =>
    rw [List.map_cons, h a (by simp), ih (fun x hx => h x (by simp [hx]))]

theorem ofChars_data (s : String) : ofChars s.data = s := rfl

theorem pieceToComp_clean (p : List Char) (h : cleanSeg p = true) :
    pieceToComp p = some (PathComp.normal p) := by
  have h1 : p ≠ [] := by intro he; subst he; simp [cleanSeg] at h
  have h2 : p ≠ ['.'] := by intro he; subst he; simp [cleanSeg] at h
  have h3 : p ≠ ['.', '.'] := by intro he; subst he; simp [cleanSeg] at h
  unfold pieceToComp
  rw [if_neg h1, if_neg h2, if_neg h3]

theorem cleanSeg_no_bslash (p : List Char) (h : cleanSeg p = true) :
    ∀ c ∈ p, c ≠ '\\' := by
  intro c hc
  simp only [cleanSeg, Bool.and_eq_true] at h
  have := List.all_eq_true.mp h.2 c hc
  simpa using this

theorem no_bslash_of_allClean (l : List Char)
    (h : (splitSep '/' l).all cleanSeg = true) : ∀ c ∈ l, c ≠ '\\' := by
  intro c hc
  rw [← joinSegs_splitSep l] at hc
  rcases mem_joinSegs c _ hc with h1 | ⟨p, hp, hcp⟩
  · subst h1; decide
  · exact cleanSeg_no_bslash p (List.all_eq_true.mp h p hp) c hcp

theorem no_bslash_of_cleanAbs (s : String) (h : CleanAbs s = true) :
    ∀ c ∈ s.data, c ≠ '\\' := by
  unfold CleanAbs at h
  rw [Bool.and_eq_true] at h
  have hs : s.data = '/' :: s.data.tail := eq_cons_of_head? (by simpa using h.1)
  intro c hc
  rw [hs] at hc
  rcases List.mem_cons.mp hc with h1 | h2
  · subst h1; decide
  · exact no_bslash_of_allClean s.data.tail h.2 c h2

theorem filterMap_clean (pieces : List (List Char)) (h : pieces.all cleanSeg = true) :
    pieces.filterMap pieceToComp = pieces.map PathComp.normal := by
  induction pieces with
  | nil => rfl
  | cons p ps ih =>
    rw [List.all_cons, Bool.and_eq_true] at h
    simp [List.filterMap_cons, pieceToComp_clean p h.1, ih h.2]

theorem splitSep_cons_self (rest : List Char) :
    splitSep '/' ('/' :: rest) = [] :: splitSep '/' rest := by
  show splitSepGo '/' ('/' :: rest) [] = _
  simp [splitSepGo, splitSep]

theorem strComponents_clean (s : String) (rest : List Char) (hs : s.data = '/' :: rest)
    (h : (splitSep '/' rest).all cleanSeg = true) :
    strComponents s = PathComp.rootDir :: (splitSep '/' rest).map PathComp.normal := by
  unfold strComponents
  rw [hs, splitSep_cons_self, List.filterMap_cons]
  have hnil : pieceToComp [] = none := rfl
  rw [hnil, filterMap_clean _ h]
  simp

theorem foldl_pushComp_normals (pieces : List (List Char)) (b : Bool)
    (segs : List (List Char)) :
    (pieces.map PathComp.normal).foldl PBuf.pushComp ⟨b, segs⟩ = ⟨b, segs ++ pieces⟩ := by
  induction pieces generalizing segs with
  | nil => simp
  | cons p ps ih =>
    simp only [List.map_cons, List.foldl_cons, PBuf.pushComp]
    rw [ih]
    simp

theorem parse_dots_clean (s basis : String) (rest : List Char) (hs : s.data = '/' :: rest)
    (h : (splitSep '/' rest).all cleanSeg = true) : parse_dots s basis = s := by
  unfold parse_dots
  rw [strComponents_clean s rest hs h, List.foldl_cons]
  have hroot : PBuf.pushComp (PBuf.ofString basis) PathComp.rootDir = ⟨true, []⟩ := rfl
  rw [hroot, foldl_pushComp_normals]
  have hstr : PBuf.toStr ⟨true, [] ++ splitSep '/' rest⟩ =
      ofChars ('/' :: joinSegs (splitSep '/' rest)) := rfl
  rw [hstr, joinSegs_splitSep, ← hs]
  exact ofChars_data s

theorem parse_dots_cleanAbs (s basis : String) (h : CleanAbs s = true) :
    parse_dots s basis = s := by
  unfold CleanAbs at h
  rw [Bool.and_eq_true] at h
  exact parse_dots_clean s basis s.data.tail (eq_cons_of_head? (by simpa using h.1)) h.2

theorem parse_home_id (env : Env) (s : String) (hh : s.data.head? ≠ some '~') :
    parse_home env s = s := by
  unfold parse_home
  rw [if_neg]
  intro h
  apply hh
  rcases (by simpa using h :
      (s = "~" ∨ strStartsWith s "~/" = true) ∨ strStartsWith s "~\\" = true) with (h1 | h2) | h3
  · subst h1; rfl
  · obtain ⟨t, ht⟩ := List.isPrefixOf_iff_prefix.mp h2
    rw [← ht]; rfl
  · obtain ⟨t, ht⟩ := List.isPrefixOf_iff_prefix.mp h3
    rw [← ht]; rfl

theorem normalize_id (env : Env) (s : String) (hh : s.data.head? ≠ some '~')
    (hb : ∀ c ∈ s.data, c ≠ '\\') : normalize env s = s := by
  unfold normalize
  rw [parse_home_id env s hh, mapSelf _ _ (fun c hc => by simp [hb c hc])]
  exact ofChars_data s

theorem interpret_cleanAbs (env : Env) (s : String) (basis : Option String)
    (h : CleanAbs s = true) : interpretRaw env s basis = s := by
  have hh : s.data.head? ≠ some '~' := by
    unfold CleanAbs at h
    rw [Bool.and_eq_true] at h
    have := (beq_iff_eq ..).mp h.1
    rw [this]
    simp
  have hb := no_bslash_of_cleanAbs s h
  have habs : isAbsolute s = true := by
    unfold CleanAbs at h
    rw [Bool.and_eq_true] at h
    unfold isAbsolute
    simpa using h.1
  unfold interpretRaw
  simp only [normalize_id env s hh hb, habs, if_pos]
  rw [parse_dots_cleanAbs s _ h, mapSelf _ _ (fun c hc => by simp [hb c hc])]
  exact ofChars_data s

theorem replaceAllGo_not_mem (p : Char) (ps rep : List Char) (l : List Char)
    (fuel : Nat) (h : p ∉ l) : replaceAllGo p ps rep fuel l = l := by
  induction l generalizing fuel with
  | nil => cases fuel <;> rfl
  | cons c cs ih =>
    have hpc : p ≠ c := fun he => h (by simp [he])
    cases fuel with
    | zero => rfl
    | succ f =>
      unfold replaceAllGo
      rw [if_neg (by simp [hpc]), ih f (fun hm => h (by simp [hm]))]

theorem renderStr_id (s : String) (hb : ∀ c ∈ s.data, c ≠ '\\') : renderStr s = s := by
  unfold renderStr
  have hrepl : replaceAll s "\\\\?\\" "" = s := by
    show ofChars (replaceAllGo '\\' ['\\', '?', '\\'] [] s.data.length s.data) = s
    rw [replaceAllGo_not_mem _ _ _ _ _ (fun hm => hb '\\' hm rfl)]
    exact ofChars_data s
  rw [hrepl, mapSelf _ _ (fun c hc => by simp [hb c hc])]
  exact ofChars_data s

theorem render_new_cleanAbs (env : Env) (s : String) (h : CleanAbs s = true) :
    (StrictPath.new s).render env = s := by
  unfold StrictPath.render StrictPath.new StrictPath.interpret
  show renderStr (interpretRaw env s none) = s
  rw [interpret_cleanAbs env s none h]
  exact renderStr_id s (no_bslash_of_cleanAbs s h)

theorem strData_append (a b : String) : (a ++ b).data = a.data ++ b.data := rfl

theorem exists_append_of_getLast? {α : Type} {l : List α} {a : α}
    (h : l.getLast? = some a) : ∃ u, l = u ++ [a] := by
  induction l with
  | nil => simp at h
  | cons x xs ih =>
    cases xs with
    | nil =>
      simp [List.getLast?] at h
      exact ⟨[], by simp [h]⟩
    | cons y ys =>
      rw [List.getLast?_cons_cons] at h
      obtain ⟨u, hu⟩ := ih h
      exact ⟨x :: u, by simp [hu]⟩

theorem cleanAbs_parts (b : String) (h : CleanAbs b = true) :
    b.data = '/' :: b.data.tail ∧ (splitSep '/' b.data.tail).all cleanSeg = true := by
  unfold CleanAbs at h
  rw [Bool.and_eq_true] at h
  exact ⟨eq_cons_of_head? (by simpa using h.1), h.2⟩

theorem splitSep_append_nilpiece (u : List Char) :
    splitSep '/' (u ++ ['/']) = splitSep '/' u ++ [[]] := by
  have := splitSep_sep_append '/' u []
  simpa [splitSep, splitSepGo] using this

theorem getLast?_ne_slash (b : String) (h : CleanAbs b = true) :
    b.data.getLast? ≠ some '/' := by
  obtain ⟨hs, hall⟩ := cleanAbs_parts b h
  intro hlast
  obtain ⟨u, hu⟩ := exists_append_of_getLast? hlast
  cases u with
  | nil =>
    have htail : b.data.tail = [] := by rw [hu]; rfl
    rw [htail] at hall
    simp [splitSep, splitSepGo, cleanSeg] at hall
  | cons x u' =>
    have htail : b.data.tail = u' ++ ['/'] := by rw [hu]; rfl
    rw [htail, splitSep_append_nilpiece, List.all_append] at hall
    simp [cleanSeg] at hall

theorem joinPath_cleanAbs (b r : String) (h : CleanAbs b = true) :
    joinPath b r = b ++ "/" ++ r := by
  obtain ⟨hs, _⟩ := cleanAbs_parts b h
  unfold joinPath
  rw [if_neg (by rw [hs]; simp), if_neg (getLast?_ne_slash b h)]

theorem cleanRel_parts (r : String) (h : cleanRel r = true) :
    r.data ≠ [] ∧ r.data.head? ≠ some '/' ∧ r.data.head? ≠ some '~' ∧
      (splitSep '/' r.data).all cleanSeg = true := by
  unfold cleanRel at h
  simp only [Bool.and_eq_true] at h
  obtain ⟨⟨⟨hA, hB⟩, hC⟩, hD⟩ := h
  refine ⟨by simpa using hA, by simpa using hB, by simpa using hC, hD⟩

theorem appendSlash_data (b r : String) (tb : List Char) (hbs : b.data = '/' :: tb) :
    (b ++ "/" ++ r).data = '/' :: (tb ++ '/' :: r.data) := by
  rw [strData_append, strData_append, hbs]
  simp

theorem interpret_cleanRel (env : Env) (r b : String)
    (hr : cleanRel r = true) (hb : CleanAbs b = true) :
    interpretRaw env r (some b) = b ++ "/" ++ r := by
  obtain ⟨hne, hslash, htilde, hall⟩ := cleanRel_parts r hr
  obtain ⟨hbs, hball⟩ := cleanAbs_parts b hb
  have hbsl := no_bslash_of_allClean r.data hall
  have habs : isAbsolute r = false := by unfold isAbsolute; simpa using hslash
  have hwdata : (b ++ "/" ++ r).data = '/' :: (b.data.tail ++ '/' :: r.data) :=
    appendSlash_data b r b.data.tail hbs
  have hwall : (splitSep '/' (b.data.tail ++ '/' :: r.data)).all cleanSeg = true := by
    rw [splitSep_sep_append, List.all_append]
    simp [hball, hall]
  have hwnb : ∀ c ∈ (b ++ "/" ++ r).data, c ≠ '\\' := by
    intro c hc
    rw [hwdata] at hc
    rcases List.mem_cons.mp hc with h1 | h2
    · subst h1; decide
    · exact no_bslash_of_allClean _ hwall c h2
  unfold interpretRaw
  simp only [normalize_id env r htilde hbsl, habs, Bool.false_eq_true, if_false,
    joinPath_cleanAbs b r hb]
  rw [parse_dots_clean (b ++ "/" ++ r) b (b.data.tail ++ '/' :: r.data) hwdata hwall,
    mapSelf _ _ (fun c hc => by simp [hwnb c hc])]
  exact ofChars_data _

theorem cleanAbs_append (b r : String) (hb : CleanAbs b = true) (hr : cleanRel r = true) :
    CleanAbs (b ++ "/" ++ r) = true := by
  obtain ⟨hbs, hball⟩ := cleanAbs_parts b hb
  obtain ⟨_, _, _, hall⟩ := cleanRel_parts r hr
  have hwdata := appendSlash_data b r b.data.tail hbs
  unfold CleanAbs
  rw [Bool.and_eq_true]
  constructor
  · rw [hwdata]; simp
  · have htail : (b ++ "/" ++ r).data.tail = b.data.tail ++ '/' :: r.data := by
      rw [hwdata]
      rfl
    rw [htail, splitSep_sep_append, List.all_append]
    simp [hball, hall]

theorem cleanRel_append (r1 r2 : String) (h1 : cleanRel r1 = true)
    (h2 : cleanRel r2 = true) : cleanRel (r1 ++ "/" ++ r2) = true := by
  obtain ⟨hne1, hs1, ht1, hall1⟩ := cleanRel_parts r1 h1
  obtain ⟨_, _, _, hall2⟩ := cleanRel_parts r2 h2
  have hdata : (r1 ++ "/" ++ r2).data = r1.data ++ '/' :: r2.data := by
    rw [strData_append, strData_append]
    simp
  unfold cleanRel
  rw [hdata]
  cases hr1 : r1.data with
  | nil => exact absurd hr1 hne1
  | cons c t =>
    rw [hr1] at hs1 ht1
    simp only [List.cons_append, List.head?_cons] at hs1 ht1 ⊢
    have hc1 : (c != '/') = true := by simpa using fun he => hs1 (by rw [he])
    have hc2 : (c != '~') = true := by simpa using fun he => ht1 (by rw [he])
    rw [← List.cons_append, ← hr1, splitSep_sep_append]
    simp only [hc1, hc2, List.all_append, hall1, hall2, Bool.and_self, Bool.and_true,
      Bool.true_and]
    have hne : (r1.data ++ '/' :: r2.data).isEmpty = false := by
      rw [hr1]
      rfl
    simp [hne, hs1, ht1]

theorem strContains_false (s pat : String) (h : strContains s pat = false) :
    ∀ i, pat.data.isPrefixOf (s.data.drop i) = false := by
  intro i
  unfold strContains at h
  rw [List.any_eq_false] at h
  by_cases hi : i ≤ s.data.length
  · have hmem : i ∈ List.range (s.data.length + 1) := List.mem_range.mpr (by omega)
    rw [Bool.eq_false_iff]
    exact h i hmem
  · have hd : s.data.drop i = [] := List.drop_eq_nil_of_le (by omega)
    rw [hd]
    cases hp : pat.data with
    | nil =>
      exfalso
      have h0 := h 0 (List.mem_range.mpr (by omega))
      rw [hp] at h0
      simp [List.isPrefixOf] at h0
    | cons a as => simp [List.isPrefixOf]

theorem replaceAllGo_no_occur (p : Char) (ps rep l : List Char) (fuel : Nat)
    (h : ∀ i, (p :: ps).isPrefixOf (l.drop i) = false) :
    replaceAllGo p ps rep fuel l = l := by
  induction l generalizing fuel with
  | nil => cases fuel <;> rfl
  | cons c cs ih =>
    cases fuel with
    | zero => rfl
    | succ f =>
      unfold replaceAllGo
      rw [if_neg, ih f]
      · intro i
        have := h (i + 1)
        simpa using this
      · have h0 := h 0
        simp only [List.drop_zero] at h0
        rw [Bool.eq_false_iff] at h0
        exact h0

theorem dfnLoop_spec (d : String) (m : List (String × String)) :
    ∀ (len a : Nat),
      dfnLoop d (List.range' (a + 1) len) (mkTok a) m =
        match (List.range' a len).find? (fun i => !contains_key m (mkTok i)) with
        | some i => (mkTok i, m ++ [(mkTok i, d)])
        | none => (mkTok (a + len), m) := by
  intro len
  induction len with
  | zero => intro a; rfl
  | succ k ih =>
    intro a
    rw [List.range'_succ, List.range'_succ]
    show dfnLoop d ((a + 1) :: List.range' (a + 1 + 1) k) (mkTok a) m = _
    unfold dfnLoop
    rw [List.find?_cons]
    cases hc : contains_key m (mkTok a) with
    | false => simp [hc]
    | true =>
      simp only [hc, Bool.not_true, if_true]
      rw [ih (a + 1)]
      have : a + 1 + k = a + (k + 1) := by omega
      rw [this]

theorem drive_folder_name_spec (m : IndividualMapping) (d : String)
    (hnone : reversed_get m.drives d = none) :
    m.drive_folder_name d =
      match (List.range' 1 998).find? (fun i => !contains_key m.drives (mkTok i)) with
      | some i => (mkTok i, ⟨m.name, m.drives ++ [(mkTok i, d)]⟩)
      | none => ("drive-999", m) := by
  unfold IndividualMapping.drive_folder_name
  rw [hnone]
  have h1 : (List.range' 2 998) = List.range' (1 + 1) 998 := rfl
  have h2 : "drive-1" = mkTok 1 := rfl
  rw [h1, h2, dfnLoop_spec d m.drives 998 1]
  cases hf : (List.range' 1 998).find? (fun i => !contains_key m.drives (mkTok i)) with
  | none =>
    have h3 : mkTok (1 + 998) = "drive-999" := rfl
    simp [h3]
  | some i => rfl

theorem dfn_cases (m : IndividualMapping) (d : String)
    (hnone : reversed_get m.drives d = none) :
    (∃ i, contains_key m.drives (mkTok i) = false ∧
        m.drive_folder_name d = (mkTok i, ⟨m.name, m.drives ++ [(mkTok i, d)]⟩)) ∨
      m.drive_folder_name d = ("drive-999", m) := by
  rw [drive_folder_name_spec m d hnone]
  cases hf : (List.range' 1 998).find? (fun i => !contains_key m.drives (mkTok i)) with
  | none => right; rfl
  | some i =>
    left
    refine ⟨i, ?_, rfl⟩
    have := List.find?_some hf
    simpa using this

theorem reversed_get_mem (drives : List (String × String)) (d k : String)
    (h : reversed_get drives d = some k) : (k, d) ∈ drives := by
  unfold reversed_get at h
  cases hf : drives.find? (fun kv => kv.2 == d) with
  | none => rw [hf] at h; simp at h
  | some kv =>
    rw [hf] at h
    simp only [Option.map] at h
    rw [Option.some_inj] at h
    have hmem := List.mem_of_find?_eq_some hf
    have hval := List.find?_some hf
    have hkv : kv = (k, d) := by
      obtain ⟨a, b⟩ := kv
      simp at h hval
      simp [h, hval]
    rwa [hkv] at hmem

theorem reversed_get_none_vals (drives : List (String × String)) (d : String)
    (h : reversed_get drives d = none) : ∀ kv ∈ drives, kv.2 ≠ d := by
  unfold reversed_get at h
  cases hf : drives.find? (fun kv => kv.2 == d) with
  | some kv => rw [hf] at h; simp at h
  | none =>
    intro kv hmem
    have := List.find?_eq_none.mp hf kv hmem
    simpa using this

theorem find?_append_left_none {α : Type} (p : α → Bool) (l1 l2 : List α)
    (h : l1.find? p = none) : (l1 ++ l2).find? p = l2.find? p := by
  rw [List.find?_append, h]
  rfl

theorem contains_key_false_iff (l : List (String × String)) (k : String) :
    contains_key l k = false ↔ ∀ kv ∈ l, kv.1 ≠ k := by
  unfold contains_key
  rw [List.any_eq_false]
  constructor
  · intro h kv hm
    have := h kv hm
    simpa using this
  · intro h kv hm
    simpa using h kv hm

theorem mem_keys_of_mem {l : List (String × String)} {kv : String × String}
    (h : kv ∈ l) : kv.1 ∈ l.map Prod.fst :=
  List.mem_map_of_mem Prod.fst h

theorem assoc_unique (l : List (String × String))
    (hnd : (l.map Prod.fst).Nodup) (k a b : String)
    (ha : (k, a) ∈ l) (hb : (k, b) ∈ l) : a = b := by
  induction l with
  | nil => simp at ha
  | cons x xs ih =>
    rw [List.map_cons, List.nodup_cons] at hnd
    rcases List.mem_cons.mp ha with h1 | h1 <;> rcases List.mem_cons.mp hb with h2 | h2
    · exact congrArg Prod.snd (h1.trans h2.symm)
    · exfalso
      have hk : k ∈ xs.map Prod.fst := mem_keys_of_mem h2
      apply hnd.1
      have hx : x.1 = k := by rw [← h1]
      rwa [hx]
    · exfalso
      have hk : k ∈ xs.map Prod.fst := mem_keys_of_mem h1
      apply hnd.1
      have hx : x.1 = k := by rw [← h2]
      rwa [hx]
    · exact ih hnd.2 h1 h2

theorem reversed_get_append_single (drives : List (String × String)) (k d : String)
    (hnone : reversed_get drives d = none) :
    reversed_get (drives ++ [(k, d)]) d = some k := by
  unfold reversed_get at hnone ⊢
  cases hf : drives.find? (fun kv => kv.2 == d) with
  | some kv => rw [hf] at hnone; simp at hnone
  | none =>
    rw [find?_append_left_none _ _ _ hf]
    simp [List.find?_cons]

theorem dfn_found (m : IndividualMapping) (d k : String)
    (h : reversed_get m.drives d = some k) : m.drive_folder_name d = (k, m) := by
  unfold IndividualMapping.drive_folder_name
  rw [h]

theorem dfn_idempotent (m : IndividualMapping) (d : String) :
    ((m.drive_folder_name d).2.drive_folder_name d).1 = (m.drive_folder_name d).1 := by
  cases hr : reversed_get m.drives d with
  | some k =>
    have h1 := dfn_found m d k hr
    rw [h1, h1]
  | none =>
    rcases dfn_cases m d hr with ⟨i, hci, heq⟩ | heq
    · rw [heq]
      show ((⟨m.name, m.drives ++ [(mkTok i, d)]⟩ :
        IndividualMapping).drive_folder_name d).1 = mkTok i
      unfold IndividualMapping.drive_folder_name
      have hrev : reversed_get (m.drives ++ [(mkTok i, d)]) d = some (mkTok i) :=
        reversed_get_append_single m.drives (mkTok i) d hr
      rw [show (⟨m.name, m.drives ++ [(mkTok i, d)]⟩ : IndividualMapping).drives =
        m.drives ++ [(mkTok i, d)] from rfl, hrev]
    · rw [heq, heq]

theorem nodup_keys_insert (drives : List (String × String)) (k d : String)
    (hnd : (drives.map Prod.fst).Nodup) (hc : contains_key drives k = false) :
    ((drives ++ [(k, d)]).map Prod.fst).Nodup := by
  rw [List.map_append, List.nodup_append]
  refine ⟨hnd, by simp, ?_⟩
  intro x hx hx2
  simp only [List.map_cons, List.map_nil, List.mem_singleton] at hx2
  subst hx2
  rw [contains_key_false_iff] at hc
  obtain ⟨kv, hkvm, hkva⟩ := List.mem_map.mp hx
  exact hc kv hkvm hkva

theorem dfn_distinct (m : IndividualMapping) (d1 d2 : String) (hne : d1 ≠ d2)
    (hnd : (m.drives.map Prod.fst).Nodup)
    (hp1 : dfnProgressed m d1) (hp2 : dfnProgressed (m.drive_folder_name d1).2 d2) :
    ((m.drive_folder_name d1).2.drive_folder_name d2).1 ≠ (m.drive_folder_name d1).1 := by
  -- establish facts about the first call
  have first : (((m.drive_folder_name d1).1), d1) ∈ (m.drive_folder_name d1).2.drives ∧
      ((m.drive_folder_name d1).2.drives.map Prod.fst).Nodup := by
    cases hr : reversed_get m.drives d1 with
    | some k =>
      rw [dfn_found m d1 k hr]
      exact ⟨reversed_get_mem m.drives d1 k hr, hnd⟩
    | none =>
      rcases dfn_cases m d1 hr with ⟨i, hci, heq⟩ | heq
      · rw [heq]
        exact ⟨by simp, nodup_keys_insert m.drives (mkTok i) d1 hnd hci⟩
      · exfalso
        rcases hp1 with hp | hp
        · exact hp hr
        · exact hp (by rw [heq])
  obtain ⟨hmem1, hnd1⟩ := first
  -- analyse the second call
  cases hr2 : reversed_get (m.drive_folder_name d1).2.drives d2 with
  | some k2 =>
    rw [dfn_found _ d2 k2 hr2]
    intro he
    have he' : k2 = (m.drive_folder_name d1).1 := he
    have hmem2 := reversed_get_mem _ d2 k2 hr2
    rw [he'] at hmem2
    exact hne (assoc_unique _ hnd1 _ d1 d2 hmem1 hmem2)
  | none =>
    rcases dfn_cases _ d2 hr2 with ⟨j, hcj, heq⟩ | heq
    · rw [heq]
      intro he
      have he' : mkTok j = (m.drive_folder_name d1).1 := he
      rw [contains_key_false_iff] at hcj
      exact hcj _ hmem1 he'.symm
    · exfalso
      rcases hp2 with hp | hp
      · exact hp hr2
      · exact hp (by rw [heq])

theorem find?_range'_spec (p : Nat → Bool) :
    ∀ (len a i : Nat), (List.range' a len).find? p = some i →
      p i = true ∧ a ≤ i ∧ i < a + len ∧ ∀ j, a ≤ j → j < i → p j = false := by
  intro len
  induction len with
  | zero => intro a i h; simp at h
  | succ k ih =>
    intro a i h
    rw [List.range'_succ, List.find?_cons] at h
    cases hpa : p a with
    | true =>
      rw [hpa] at h
      have hai : a = i := by simpa using h
      subst hai
      exact ⟨hpa, le_refl a, by omega, fun j hj1 hj2 => by omega⟩
    | false =>
      rw [hpa] at h
      obtain ⟨hp, h1, h2, h3⟩ := ih (a + 1) i h
      refine ⟨hp, by omega, by omega, ?_⟩
      intro j hj1 hj2
      by_cases hj : j = a
      · rw [hj]; exact hpa
      · exact h3 j (by omega) hj2

theorem fullDrives_vals (kv : String × String) (h : kv ∈ fullDrives) : kv.2 = "" := by
  unfold fullDrives at h
  obtain ⟨i, hi, he⟩ := List.mem_map.mp h
  rw [← he]

theorem reversed_get_fullDrives (d : String) (hd : d ≠ "") :
    reversed_get fullDrives d = none := by
  unfold reversed_get
  rw [List.find?_eq_none.mpr]
  · rfl
  · intro kv hkv
    simp [fullDrives_vals kv hkv]
    exact fun he => hd he.symm

theorem contains_fullDrives (i : Nat) (h1 : 1 ≤ i) (h2 : i ≤ 998) :
    contains_key fullDrives (mkTok i) = true := by
  unfold contains_key
  rw [List.any_eq_true]
  refine ⟨(mkTok i, ""), ?_, by simp⟩
  unfold fullDrives
  exact List.mem_map_of_mem _ (List.mem_range'_1.mpr ⟨h1, by omega⟩)

theorem full_find_none :
    (List.range' 1 998).find? (fun i => !contains_key fullDrives (mkTok i)) = none := by
  rw [List.find?_eq_none]
  intro i hi
  rw [List.mem_range'_1] at hi
  simp [contains_fullDrives i hi.1 (by omega)]

theorem dfn_mFull_falls_through (d : String) (hd : d ≠ "") :
    mFull.drive_folder_name d = ("drive-999", mFull) := by
  have hdr : mFull.drives = fullDrives := rfl
  rw [drive_folder_name_spec mFull d (by rw [hdr]; exact reversed_get_fullDrives d hd)]
  rw [hdr, full_find_none]

/-- C4: `drive_folder_name` is idempotent — a second call with the same
drive on the post-call instance returns the same token — for every instance
and drive; and the tokens returned for two distinct drives on the same
instance are pairwise distinct provided the instance's tokens are unique
and each call actually records its drive (finds it mapped or inserts a
fresh token); the recording proviso is the amendment forced by the
saturated-map counterexample, where the allocation loop falls through. -/
theorem C4_token_idempotent_and_distinct :
    (∀ (m : IndividualMapping) (d : String),
      ((m.drive_folder_name d).2.drive_folder_name d).1 = (m.drive_folder_name d).1) ∧
    (∀ (m : IndividualMapping) (d1 d2 : String), d1 ≠ d2 →
      (m.drives.map Prod.fst).Nodup → dfnProgressed m d1 →
      dfnProgressed (m.drive_folder_name d1).2 d2 →
      ((m.drive_folder_name d1).2.drive_folder_name d2).1 ≠ (m.drive_folder_name d1).1) :=
  ⟨dfn_idempotent, dfn_distinct⟩

/-- Witness for C4: on a fresh mapping, a repeated call for `"C:"` returns
the same token, and the tokens for `"C:"` and `"D:"` differ. -/
theorem C4_token_idempotent_and_distinct_witness :
    ((((IndividualMapping.new "g").drive_folder_name "C:").2.drive_folder_name "C:").1 =
      ((IndividualMapping.new "g").drive_folder_name "C:").1) ∧
    ((((IndividualMapping.new "g").drive_folder_name "C:").2.drive_folder_name "D:").1 ≠
      ((IndividualMapping.new "g").drive_folder_name "C:").1) :=
  ⟨C4_token_idempotent_and_distinct.1 (IndividualMapping.new "g") "C:",
    C4_token_idempotent_and_distinct.2 (IndividualMapping.new "g") "C:" "D:" (by decide)
      (by decide) (Or.inr (by decide)) (Or.inr (by decide))⟩

/-- C4 counterexample: on the saturated instance `mFull` (tokens `drive-1`
… `drive-998` all taken), the distinct drives `"A:"` and `"B:"` both
receive the token `"drive-999"`, so the pairwise-distinctness clause of the
claim is false as stated. -/
theorem C4_token_distinct_cex :
    "A:" ≠ "B:" ∧
    mFull.drive_folder_name "A:" = ("drive-999", mFull) ∧
    ((mFull.drive_folder_name "A:").2.drive_folder_name "B:").1 =
      (mFull.drive_folder_name "A:").1 := by
  have hA := dfn_mFull_falls_through "A:" (by decide)
  have hB := dfn_mFull_falls_through "B:" (by decide)
  refine ⟨by decide, hA, ?_⟩
  rw [hA]
  show (mFull.drive_folder_name "B:").1 = "drive-999"
  rw [hB]

/-- C5: for a drive not yet present as a value, and provided some token
`drive-i` with `1 ≤ i ≤ 998` is still unused (the `find?` hypothesis — the
amendment forced by the saturated-map counterexample), `drive_folder_name`
allocates the lowest-numbered unused token of the form `drive-<n>` starting
at 1, inserts the pair `(token, drive)`, and returns the new token. -/
theorem C5_lowest_token_allocated (m : IndividualMapping) (d : String) (i : Nat)
    (hnone : reversed_get m.drives d = none)
    (hfind : (List.range' 1 998).find?
      (fun j => !contains_key m.drives (mkTok j)) = some i) :
    m.drive_folder_name d = (mkTok i, ⟨m.name, m.drives ++ [(mkTok i, d)]⟩) ∧
      contains_key m.drives (mkTok i) = false ∧
      (∀ j, 1 ≤ j → j < i → contains_key m.drives (mkTok j) = true) := by
  obtain ⟨hp, h1, h2, h3⟩ := find?_range'_spec _ 998 1 i hfind
  refine ⟨?_, by simpa using hp, ?_⟩
  · rw [drive_folder_name_spec m d hnone, hfind]
  · intro j hj1 hj2
    have := h3 j hj1 hj2
    simpa using this

/-- Witness for C5: with `drive-1` taken, the drive `"Y:"` is allocated
`drive-2`, appended to the map. -/
theorem C5_lowest_token_allocated_witness :
    (⟨"g", [("drive-1", "X:")]⟩ : IndividualMapping).drive_folder_name "Y:" =
      ("drive-2", ⟨"g", [("drive-1", "X:"), ("drive-2", "Y:")]⟩) :=
  (C5_lowest_token_allocated ⟨"g", [("drive-1", "X:")]⟩ "Y:" 2 (by decide) (by decide)).1

/-- C5 counterexample: on the saturated instance `mFull`, the drive `"C:"`
is not a value of the map, yet the call inserts nothing (the mapping is
returned unchanged), contradicting the claim's insertion clause. -/
theorem C5_insertion_cex :
    reversed_get mFull.drives "C:" = none ∧
    mFull.drive_folder_name "C:" = ("drive-999", mFull) := by
  have hdr : mFull.drives = fullDrives := rfl
  exact ⟨by rw [hdr]; exact reversed_get_fullDrives "C:" (by decide),
    dfn_mFull_falls_through "C:" (by decide)⟩

theorem replaceAll_prefix (d suffix rep : String) (p : Char) (ps : List Char)
    (hd : d.data = p :: ps) (hno : strContains suffix d = false) :
    replaceAll (d ++ suffix) d rep = rep ++ suffix := by
  have hds : (d ++ suffix).data = p :: (ps ++ suffix.data) := by
    rw [strData_append, hd]
    rfl
  simp only [replaceAll, hd, hds]
  have hlen : (p :: (ps ++ suffix.data)).length = (ps ++ suffix.data).length + 1 := rfl
  rw [hlen]
  unfold replaceAllGo
  rw [if_pos]
  · rw [List.drop_left, replaceAllGo_no_occur p ps rep.data suffix.data _
      (fun i => by have := strContains_false suffix d hno i; rwa [hd] at this)]
    rfl
  · simp only [Bool.and_eq_true, beq_self_eq_true, true_and]
    exact List.isPrefixOf_iff_prefix.mpr (List.prefix_append ps suffix.data)

/-- C3 (code bug): `glob_any` passes `case_sensitive: CASE_INSENSITIVE_OS`
to the matcher, so matching is case-insensitive exactly on the platform
whose native filesystem is case-SENSITIVE (Linux) and case-sensitive on
Windows and macOS — the opposite polarity of the claim; the
literal-separator part of the claim does hold. -/
theorem C3_glob_case_polarity :
    (∀ p : Platform, (glob_any_options p).case_sensitive = CASE_INSENSITIVE_OS p) ∧
    (glob_any_options Platform.linux).case_sensitive = false ∧
    CASE_INSENSITIVE_OS Platform.linux = false ∧
    (glob_any_options Platform.windows).case_sensitive = true ∧
    CASE_INSENSITIVE_OS Platform.windows = true ∧
    (glob_any_options Platform.mac).case_sensitive = true ∧
    (∀ p : Platform, (glob_any_options p).require_literal_separator = true) :=
  ⟨fun _ => rfl, rfl, rfl, rfl, rfl, rfl, fun _ => rfl⟩

theorem splitSepGo_of_not_mem (sep : Char) (l acc : List Char) (h : sep ∉ l) :
    splitSepGo sep l acc = [acc.reverse ++ l] := by
  induction l generalizing acc with
  | nil => simp [splitSepGo]
  | cons c cs ih =>
    have hcs : c ≠ sep := fun he => h (by simp [he])
    simp only [splitSepGo]
    rw [if_neg (by simp [hcs]), ih (c :: acc) (fun hm => h (by simp [hm]))]
    simp

theorem splitSep_of_not_mem (sep : Char) (l : List Char) (h : sep ∉ l) :
    splitSep sep l = [l] := by
  simpa using splitSepGo_of_not_mem sep l [] h

theorem takeWhile_append_all {α : Type} (p : α → Bool) (a rest : List α)
    (h : ∀ x ∈ a, p x = true) : (a ++ rest).takeWhile p = a ++ rest.takeWhile p := by
  induction a with
  | nil => simp
  | cons x xs ih =>
    rw [List.cons_append, List.takeWhile_cons, h x (by simp),
      ih (fun y hy => h y (by simp [hy]))]
    simp

theorem noNL_mem (s : String) (h : noNL s = true) : ∀ c ∈ s.data, c ≠ '\n' := by
  intro c hc
  have := List.all_eq_true.mp h c hc
  simpa using this

theorem not_mem_of_all_ne {α : Type} {a : α} {l : List α}
    (h : ∀ c ∈ l, c ≠ a) : a ∉ l := fun hm => h a hm rfl

theorem parseEntryLines_cons (x y : List Char) (ys : List (List Char)) :
    parseEntryLines (x :: y :: ys) =
      match parseEntryLine x, parseEntryLines (y :: ys) with
      | some kv, some r => some (kv :: r)
      | _, _ => none := rfl

theorem parseEntryLine_entry (k v : String)
    (hcol : k.data.all (fun c => c != ':') = true) :
    parseEntryLine (("  " ++ k ++ ": " ++ v).data) = some (k, v) := by
  have hdata : ("  " ++ k ++ ": " ++ v).data =
      ' ' :: ' ' :: (k.data ++ ':' :: ' ' :: v.data) := by
    rw [strData_append, strData_append, strData_append]
    simp
  have htw : (k.data ++ ':' :: ' ' :: v.data).takeWhile (fun c => c != ':') = k.data := by
    rw [takeWhile_append_all _ _ _ (fun x hx => List.all_eq_true.mp hcol x hx),
      List.takeWhile_cons]
    simp
  rw [hdata]
  show (match (k.data ++ ':' :: ' ' :: v.data).drop
      (((k.data ++ ':' :: ' ' :: v.data).takeWhile (fun c => c != ':')).length) with
    | ':' :: ' ' :: v' =>
      some (ofChars ((k.data ++ ':' :: ' ' :: v.data).takeWhile (fun c => c != ':')),
        ofChars v')
    | _ => none) = some (k, v)
  rw [htw, List.drop_left]
  show some (ofChars k.data, ofChars v.data) = some (k, v)
  rw [ofChars_data, ofChars_data]

theorem parseEntryLines_entries (ds : List (String × String))
    (h : ∀ kv ∈ ds, noNL kv.1 = true ∧ noNL kv.2 = true ∧
      kv.1.data.all (fun c => c != ':') = true) :
    parseEntryLines (splitSep '\n'
      ((ds.map (fun kv => ("  " ++ kv.1 ++ ": " ++ kv.2 ++ "\n").data)).flatten)) =
      some ds := by
  induction ds with
  | nil => rfl
  | cons kv rest ih =>
    obtain ⟨hk, hv, hcol⟩ := h kv (by simp)
    have hnoNL : '\n' ∉ ("  " ++ kv.1 ++ ": " ++ kv.2).data := by
      apply not_mem_of_all_ne
      intro c hc
      rw [strData_append, strData_append, strData_append] at hc
      rcases List.mem_append.mp hc with h12 | h4
      · rcases List.mem_append.mp h12 with h12' | h3
        · rcases List.mem_append.mp h12' with h1 | h2
          · intro he; subst he; revert h1; decide
          · exact noNL_mem kv.1 hk c h2
        · intro he; subst he; revert h3; decide
      · exact noNL_mem kv.2 hv c h4
    have hflat : ((kv :: rest).map
        (fun kv => ("  " ++ kv.1 ++ ": " ++ kv.2 ++ "\n").data)).flatten =
        ("  " ++ kv.1 ++ ": " ++ kv.2).data ++ '\n' ::
          (rest.map (fun kv => ("  " ++ kv.1 ++ ": " ++ kv.2 ++ "\n").data)).flatten := by
      rw [List.map_cons, List.flatten_cons]
      have hentry : ("  " ++ kv.1 ++ ": " ++ kv.2 ++ "\n").data =
          ("  " ++ kv.1 ++ ": " ++ kv.2).data ++ ['\n'] := by
        rw [strData_append]
      rw [hentry, List.append_assoc]
      rfl
    rw [hflat, splitSep_sep_append, splitSep_of_not_mem '\n' _ hnoNL]
    have hrest := ih (fun x hx => h x (by simp [hx]))
    cases hsp : splitSep '\n'
        ((rest.map (fun kv => ("  " ++ kv.1 ++ ": " ++ kv.2 ++ "\n").data)).flatten) with
    | nil => exact absurd hsp (splitSep_ne_nil _ _)
    | cons y ys =>
      rw [hsp] at hrest
      rw [List.singleton_append, parseEntryLines_cons,
        parseEntryLine_entry kv.1 kv.2 hcol, hrest]

/-- C8: the persisted mapping document round-trips — loading the serialized
form of any valid mapping returns that mapping — and an absent file or an
unparsable document is the distinguished `Except.error ()` (the parser is a
total function, so it cannot panic). -/
theorem data_ofChars (l : List Char) : (ofChars l).data = l := rfl

theorem parseLines_cons₂ (l1 l2 : List Char) (rest : List (List Char)) :
    parseLines (l1 :: l2 :: rest) =
      if ("name: ".data).isPrefixOf l1 && l2 == "drives:".data then
        match parseEntryLines rest with
        | some ds => Except.ok ⟨ofChars (l1.drop 6), ds⟩
        | none => Except.error ()
      else Except.error () := rfl

theorem load_from_string_serialize (m : IndividualMapping)
    (hv : validMapping m = true) :
    IndividualMapping.load_from_string m.serialize = Except.ok m := by
  unfold validMapping at hv
  simp only [Bool.and_eq_true] at hv
  obtain ⟨⟨hname, hall⟩, hsorted⟩ := hv
  have hsort : sortByKey m.drives = m.drives := by simpa using hsorted
  have hvall := fun kv hkv => List.all_eq_true.mp hall kv hkv
  have hdata : (m.serialize).data =
      ("name: ".data ++ m.name.data) ++ '\n' :: ("drives:".data ++ '\n' ::
        ((m.drives.map
          (fun kv => ("  " ++ kv.1 ++ ": " ++ kv.2 ++ "\n").data)).flatten)) := by
    unfold IndividualMapping.serialize
    rw [hsort, strData_append, strData_append, strData_append, data_ofChars]
    simp
  have hnoNL1 : '\n' ∉ ("name: ".data ++ m.name.data) := by
    apply not_mem_of_all_ne
    intro c hc
    rcases List.mem_append.mp hc with h1 | h2
    · intro he; subst he; revert h1; decide
    · exact noNL_mem m.name hname c h2
  have hsplit : splitSep '\n' (m.serialize).data =
      ("name: ".data ++ m.name.data) :: "drives:".data ::
        splitSep '\n'
          ((m.drives.map
            (fun kv => ("  " ++ kv.1 ++ ": " ++ kv.2 ++ "\n").data)).flatten) := by
    rw [hdata, splitSep_sep_append, splitSep_of_not_mem '\n' _ hnoNL1,
      splitSep_sep_append, splitSep_of_not_mem '\n' "drives:".data (by decide)]
    rfl
  unfold IndividualMapping.load_from_string
  rw [hsplit, parseLines_cons₂, if_pos, parseEntryLines_entries m.drives
    (fun kv hkv => by
      obtain ⟨h1, h2⟩ := (Bool.and_eq_true ..).mp (hvall kv hkv)
      obtain ⟨h1a, h1b⟩ := (Bool.and_eq_true ..).mp h1
      exact ⟨h1a, h1b, h2⟩)]
  · have hdrop : ("name: ".data ++ m.name.data).drop 6 = m.name.data := by
      have h6 : ("name: ".data ++ m.name.data).drop 6 =
          ("name: ".data ++ m.name.data).drop ("name: ".data).length := rfl
      rw [h6, List.drop_left]
    rw [hdrop, ofChars_data]
  · simp only [Bool.and_eq_true]
    exact ⟨List.isPrefixOf_iff_prefix.mpr (List.prefix_append _ _), by simp⟩

/-- C8 (amended): the persisted mapping document round-trips — loading the
serialized form of any valid mapping returns that mapping — an absent file
is the distinguished `Except.error ()`, and a *successfully read* document
always returns normally (the parser is total), with unparsable content as
the distinguished error.  The claim's unconditional "never a panic" is
refuted by the counterexample: a present file whose read itself fails hits
the `unwrap` on `read_to_string` and panics. -/
theorem C8_mapping_roundtrip :
    (∀ m : IndividualMapping, validMapping m = true →
      IndividualMapping.load true (some m.serialize) = some (Except.ok m)) ∧
    (∀ read : Option String,
      IndividualMapping.load false read = some (Except.error ())) ∧
    IndividualMapping.load true (some "not a mapping document") =
      some (Except.error ()) ∧
    (∀ content : String, IndividualMapping.load true (some content) =
      some (IndividualMapping.load_from_string content)) := by
  refine ⟨?_, fun read => rfl, rfl, fun content => rfl⟩
  intro m hv
  show some (IndividualMapping.load_from_string m.serialize) = some (Except.ok m)
  rw [load_from_string_serialize m hv]

/-- C8 counterexample: for a present mapping file whose read fails (for
example a file holding non-UTF-8 bytes — an unparsable document), `load`
panics via the `unwrap` on `read_to_string` (the `none` outcome) instead
of returning the distinguished error, so "loading an absent or unparsable
mapping file yields Err, never a panic" is false as stated. -/
theorem C8_mapping_load_panic_cex :
    IndividualMapping.load true none = none ∧
    IndividualMapping.load true none ≠ some (Except.error ()) :=
  ⟨rfl, fun h => Option.noConfusion h⟩

/-- Witness for C8 at a concrete valid mapping with two drives. -/
theorem C8_mapping_roundtrip_witness :
    IndividualMapping.load true
        (some (IndividualMapping.serialize
          ⟨"g", [("drive-1", "C:"), ("drive-2", "")]⟩)) =
      some (Except.ok ⟨"g", [("drive-1", "C:"), ("drive-2", "")]⟩) :=
  C8_mapping_roundtrip.1 ⟨"g", [("drive-1", "C:"), ("drive-2", "")]⟩ (by decide)

theorem gfrt_no_match (env : Env) (target : StrictPath)
    (redirects : List RedirectConfig)
    (hclean : CleanAbs (target.render env) = true)
    (hno : ∀ rc ∈ redirects, rc.source.render env = "" ∨ rc.target.render env = "" ∨
      strStartsWith (target.render env) (rc.source.render env) = false) :
    game_file_restoration_target env target redirects = (target, none) := by
  unfold game_file_restoration_target
  have hfold : ∀ (rs : List RedirectConfig),
      (∀ rc ∈ rs, rc.source.render env = "" ∨ rc.target.render env = "" ∨
        strStartsWith (target.render env) (rc.source.render env) = false) →
      rs.foldl
        (fun acc redirect =>
          let s := redirect.source.render env
          let t := redirect.target.render env
          if !(s == "") && !(t == "") && strStartsWith acc s then replaceFirst acc s t
          else acc)
        (target.render env) = target.render env := by
    intro rs
    induction rs with
    | nil => intro _; rfl
    | cons rc rest ih =>
      intro h
      rw [List.foldl_cons]
      have hstep : (if !(rc.source.render env == "") && !(rc.target.render env == "") &&
          strStartsWith (target.render env) (rc.source.render env) then
            replaceFirst (target.render env) (rc.source.render env) (rc.target.render env)
          else target.render env) = target.render env := by
        rcases h rc (by simp) with h1 | h1 | h1 <;> rw [if_neg] <;> simp [h1]
      show List.foldl _ (if !(rc.source.render env == "") && !(rc.target.render env == "") &&
          strStartsWith (target.render env) (rc.source.render env) then
            replaceFirst (target.render env) (rc.source.render env) (rc.target.render env)
          else target.render env) rest = target.render env
      rw [hstep]
      exact ih (fun x hx => h x (by simp [hx]))
  rw [hfold redirects hno]
  rw [if_neg]
  intro hne
  exact hne (by rw [render_new_cleanAbs env (target.render env) hclean])

/-- C2: with the single redirect `/old` to `/new`, restoring a file whose
original target is `/old/save.dat` yields an effective target rendering
`/new/save.dat` with the original recorded; and for every original target
(with a clean rendering) matched by no redirect source prefix, the function
returns the target unchanged paired with `none`. -/
theorem C2_redirect_application :
    ((game_file_restoration_target env0 (StrictPath.new "/old/save.dat")
        [⟨StrictPath.new "/old", StrictPath.new "/new"⟩]).1.render env0 =
          "/new/save.dat" ∧
      (game_file_restoration_target env0 (StrictPath.new "/old/save.dat")
        [⟨StrictPath.new "/old", StrictPath.new "/new"⟩]).2 =
          some (StrictPath.new "/old/save.dat")) ∧
    (∀ (env : Env) (target : StrictPath) (redirects : List RedirectConfig),
      CleanAbs (target.render env) = true →
      (∀ rc ∈ redirects, rc.source.render env = "" ∨ rc.target.render env = "" ∨
        strStartsWith (target.render env) (rc.source.render env) = false) →
      game_file_restoration_target env target redirects = (target, none)) :=
  ⟨⟨by decide, by decide⟩, gfrt_no_match⟩

/-- Witness for C2's no-match clause: a redirect from `/xyz` leaves
`/data/save.dat` unchanged with no original recorded. -/
theorem C2_redirect_application_witness :
    game_file_restoration_target env0 (StrictPath.new "/data/save.dat")
      [⟨StrictPath.new "/xyz", StrictPath.new "/new"⟩] =
      (StrictPath.new "/data/save.dat", none) :=
  C2_redirect_application.2 env0 (StrictPath.new "/data/save.dat")
    [⟨StrictPath.new "/xyz", StrictPath.new "/new"⟩] (by decide) (by decide)

theorem allSafeChars_renamed (t : String) :
    allSafeChars ("ludusavi-renamed-" ++ t) = false := by
  unfold allSafeChars
  rw [strData_append, List.all_append]
  have h1 : ("ludusavi-renamed-".data).all (fun c => c == '_') = false := by decide
  rw [h1]
  rfl

theorem renameLoop_not_safe (env : Env) (baseI : String) :
    ∀ (left idx : Nat) (safe : String), allSafeChars safe = false →
      allSafeChars (renameLoop env baseI idx left safe) = false := by
  intro left
  induction left with
  | zero =>
    intro idx safe h
    unfold renameLoop
    split
    · exact (by decide : allSafeChars "ludusavi-renamed-collision" = false)
    · exact h
  | succ k ih =>
    intro idx safe h
    unfold renameLoop
    split
    · exact ih (idx + 1) (generate_total_rename (env.rand idx)) (allSafeChars_renamed _)
    · exact h

/-- C6: for a game name whose escape is made up entirely of the replacement
character, the folder name actually chosen (the synthetic rename) is never
made up entirely of the replacement character; and `game_folder` is stable
across calls — irrespective of the random stream — whenever the game is
already present in the layout's loaded mapping.  The stability clause is
restricted to mapped games, the amendment forced by the counterexample:
for an unmapped all-unsafe name each call draws fresh randomness. -/
theorem C6_game_folder_rename :
    (∀ (env : Env) (baseI n : String) (rngStart : Nat),
      allSafeChars (escape_folder_name n) = true →
      allSafeChars (game_folder_name env baseI n rngStart) = false) ∧
    (∀ (layout : BackupLayout) (env1 env2 : Env) (n : String) (r1 r2 : Nat)
      (g : OverallMappingGame),
      lookup_game layout.mapping.games n = some g →
      layout.game_folder env1 n r1 = layout.game_folder env2 n r2) := by
  constructor
  · intro env baseI n rngStart h
    unfold game_folder_name
    rw [if_pos h]
    exact renameLoop_not_safe env baseI 1000 (rngStart + 1) _ (allSafeChars_renamed _)
  · intro layout env1 env2 n r1 r2 g hg
    unfold BackupLayout.game_folder
    rw [hg]

/-- Witness for C6: the all-unsafe name `":"` gets a non-underscore
synthetic folder name, and a mapped game resolves to the same folder under
two different ambient states and random positions. -/
theorem C6_game_folder_rename_witness :
    allSafeChars (game_folder_name env0 "/bk" ":" 0) = false ∧
    BackupLayout.game_folder
        ⟨StrictPath.new "/bk",
          ⟨[("game1", ⟨[], StrictPath.new "/bk/game1"⟩)]⟩⟩ env0 "game1" 0 =
      BackupLayout.game_folder
        ⟨StrictPath.new "/bk",
          ⟨[("game1", ⟨[], StrictPath.new "/bk/game1"⟩)]⟩⟩ envSeq "game1" 5 :=
  ⟨C6_game_folder_rename.1 env0 "/bk" ":" 0 (by decide),
    C6_game_folder_rename.2
      ⟨StrictPath.new "/bk", ⟨[("game1", ⟨[], StrictPath.new "/bk/game1"⟩)]⟩⟩
      env0 envSeq "game1" 0 5 ⟨[], StrictPath.new "/bk/game1"⟩ (by decide)⟩

/-- C6 counterexample: for the unmapped all-unsafe name `":"`, two
successive calls on the same layout (the second starting one position
further along the random stream, as the first consumed one draw) return
different folders, refuting the unconditional repeated-call stability of
the claim. -/
theorem C6_stability_cex :
    escape_folder_name ":" = "_" ∧
    BackupLayout.game_folder ⟨StrictPath.new "/bk", ⟨[]⟩⟩ envSeq ":" 0 =
      StrictPath.new "/bk/ludusavi-renamed-0" ∧
    BackupLayout.game_folder ⟨StrictPath.new "/bk", ⟨[]⟩⟩ envSeq ":" 1 =
      StrictPath.new "/bk/ludusavi-renamed-1" ∧
    BackupLayout.game_folder ⟨StrictPath.new "/bk", ⟨[]⟩⟩ envSeq ":" 0 ≠
      BackupLayout.game_folder ⟨StrictPath.new "/bk", ⟨[]⟩⟩ envSeq ":" 1 := by
  refine ⟨rfl, ?_, ?_, ?_⟩ <;> decide

theorem backUpFiles_unable (env : Env) (orc : BackupOracle) (tg : StrictPath) :
    ∀ (files : List ScannedFile) (m : IndividualMapping),
      (backUpFiles env orc true tg files m).1 = files := by
  intro files
  induction files with
  | nil => intro m; rfl
  | cons f fs ih =>
    intro m
    show (f :: (backUpFiles env orc true tg fs m).1, _, _).1 = f :: fs
    rw [show (f :: (backUpFiles env orc true tg fs m).1, _, _).1 =
      f :: (backUpFiles env orc true tg fs m).1 from rfl, ih m]

/-- C7: in `back_up_game`, when something was found and preparation fails
(the removal or the directory creation), every discovered file lands in
`failed_files`; and the fresh mapping is persisted exactly when something
was found and preparation succeeded. -/
theorem C7_preparation_failure_and_persistence (env : Env) (orc : BackupOracle)
    (info : ScanInfo) (name : String) (layout : BackupLayout) (rngStart : Nat) :
    (info.found_anything = true → (orc.removeOk && orc.createDirOk) = false →
      ∀ f ∈ info.found_files,
        f ∈ (back_up_game env orc info name layout rngStart).backup_info.failed_files) ∧
    (back_up_game env orc info name layout rngStart).mapping_saved =
      (info.found_anything && (orc.removeOk && orc.createDirOk)) := by
  constructor
  · intro hfound hprep f hf
    have hunable : (info.found_anything && !(orc.removeOk && orc.createDirOk)) = true := by
      rw [hfound, hprep]
      rfl
    show f ∈ (backUpFiles env orc
      (info.found_anything && !(orc.removeOk && orc.createDirOk))
      (layout.game_folder env name rngStart) info.found_files
      (IndividualMapping.new name)).1
    rw [hunable, backUpFiles_unable]
    exact hf
  · show (info.found_anything && !(info.found_anything &&
        !(orc.removeOk && orc.createDirOk))) =
      (info.found_anything && (orc.removeOk && orc.createDirOk))
    cases info.found_anything <;> cases orc.removeOk <;> cases orc.createDirOk <;> rfl

/-- Witness for C7: with a failing removal, the single found file is marked
failed and the mapping-persistence equation holds at the same instance. -/
theorem C7_preparation_failure_and_persistence_witness :
    (⟨StrictPath.new "/sv/a", 1, none⟩ : ScannedFile) ∈
      (back_up_game env0 ⟨false, true, fun _ => true, fun _ _ => true⟩
        ⟨"g", [⟨StrictPath.new "/sv/a", 1, none⟩], [], none⟩ "g"
        ⟨StrictPath.new "/bk", ⟨[]⟩⟩ 0).backup_info.failed_files ∧
    (back_up_game env0 ⟨false, true, fun _ => true, fun _ _ => true⟩
        ⟨"g", [⟨StrictPath.new "/sv/a", 1, none⟩], [], none⟩ "g"
        ⟨StrictPath.new "/bk", ⟨[]⟩⟩ 0).mapping_saved =
      ((⟨"g", [⟨StrictPath.new "/sv/a", 1, none⟩], [], none⟩ :
        ScanInfo).found_anything &&
        ((false : Bool) && true)) :=
  ⟨(C7_preparation_failure_and_persistence env0
      ⟨false, true, fun _ => true, fun _ _ => true⟩
      ⟨"g", [⟨StrictPath.new "/sv/a", 1, none⟩], [], none⟩ "g"
      ⟨StrictPath.new "/bk", ⟨[]⟩⟩ 0).1 (by decide) (by decide)
      ⟨StrictPath.new "/sv/a", 1, none⟩ (by decide),
    (C7_preparation_failure_and_persistence env0
      ⟨false, true, fun _ => true, fun _ _ => true⟩
      ⟨"g", [⟨StrictPath.new "/sv/a", 1, none⟩], [], none⟩ "g"
      ⟨StrictPath.new "/bk", ⟨[]⟩⟩ 0).2⟩

/-- C9: backing up exactly two files where copying the first fails and
copying the second succeeds yields a `BackupInfo` whose `failed_files` is
exactly the failing file, while the other file's copy to its computed
layout path is performed. -/
theorem C9_partial_failure (env : Env) (orc : BackupOracle) (name : String)
    (layout : BackupLayout) (rngStart : Nat) (f1 f2 : ScannedFile) (info : ScanInfo)
    (hff : info.found_files = [f1, f2])
    (hro : orc.removeOk = true) (hco : orc.createDirOk = true)
    (hpa : ∀ x, orc.createParentOk x = true)
    (hc1 : ∀ y, orc.copyOk (f1.path.interpret env) y = false)
    (hc2 : ∀ y, orc.copyOk (f2.path.interpret env) y = true) :
    (back_up_game env orc info name layout rngStart).backup_info.failed_files = [f1] ∧
    (back_up_game env orc info name layout rngStart).copies =
      [(f2.path.interpret env,
        (BackupLayout.game_file env (layout.game_folder env name rngStart) f2.path
          (BackupLayout.game_file env (layout.game_folder env name rngStart) f1.path
            (IndividualMapping.new name)).2).1.interpret env)] := by
  have hfound : info.found_anything = true := by
    unfold ScanInfo.found_anything
    rw [hff]
    rfl
  have hunable : (info.found_anything && !(orc.removeOk && orc.createDirOk)) = false := by
    rw [hfound, hro, hco]
    rfl
  have hrun : backUpFiles env orc
      (info.found_anything && !(orc.removeOk && orc.createDirOk))
      (layout.game_folder env name rngStart) info.found_files
      (IndividualMapping.new name) =
      ([f1], (BackupLayout.game_file env (layout.game_folder env name rngStart) f2.path
          (BackupLayout.game_file env (layout.game_folder env name rngStart) f1.path
            (IndividualMapping.new name)).2).2,
        [(f2.path.interpret env,
          (BackupLayout.game_file env (layout.game_folder env name rngStart) f2.path
            (BackupLayout.game_file env (layout.game_folder env name rngStart) f1.path
              (IndividualMapping.new name)).2).1.interpret env)]) := by
    rw [hunable, hff]
    unfold backUpFiles
    rw [if_neg (by simp), if_neg (by simp [hpa]), if_pos (by simp [hc1])]
    unfold backUpFiles
    rw [if_neg (by simp), if_neg (by simp [hpa]), if_neg (by simp [hc2])]
    rfl
  exact ⟨by rw [show (back_up_game env orc info name layout rngStart).backup_info.failed_files =
      (backUpFiles env orc (info.found_anything && !(orc.removeOk && orc.createDirOk))
        (layout.game_folder env name rngStart) info.found_files
        (IndividualMapping.new name)).1 from rfl, hrun],
    by rw [show (back_up_game env orc info name layout rngStart).copies =
      (backUpFiles env orc (info.found_anything && !(orc.removeOk && orc.createDirOk))
        (layout.game_folder env name rngStart) info.found_files
        (IndividualMapping.new name)).2.2 from rfl, hrun]⟩

/-- Witness for C9: two concrete files under `/sv`, an oracle that fails
copies from `/sv/a` and performs copies from `/sv/b`. -/
theorem C9_partial_failure_witness :
    (back_up_game env0 ⟨true, true, fun _ => true, fun src _ => src == "/sv/b"⟩
      ⟨"g", [⟨StrictPath.new "/sv/a", 1, none⟩, ⟨StrictPath.new "/sv/b", 2, none⟩],
        [], none⟩ "g" ⟨StrictPath.new "/bk", ⟨[]⟩⟩ 0).backup_info.failed_files =
      [⟨StrictPath.new "/sv/a", 1, none⟩] ∧
    (back_up_game env0 ⟨true, true, fun _ => true, fun src _ => src == "/sv/b"⟩
      ⟨"g", [⟨StrictPath.new "/sv/a", 1, none⟩, ⟨StrictPath.new "/sv/b", 2, none⟩],
        [], none⟩ "g" ⟨StrictPath.new "/bk", ⟨[]⟩⟩ 0).copies =
      [((StrictPath.new "/sv/b").interpret env0,
        (BackupLayout.game_file env0
          (BackupLayout.game_folder ⟨StrictPath.new "/bk", ⟨[]⟩⟩ env0 "g" 0)
          (StrictPath.new "/sv/b")
          (BackupLayout.game_file env0
            (BackupLayout.game_folder ⟨StrictPath.new "/bk", ⟨[]⟩⟩ env0 "g" 0)
            (StrictPath.new "/sv/a")
            (IndividualMapping.new "g")).2).1.interpret env0)] :=
  C9_partial_failure env0 ⟨true, true, fun _ => true, fun src _ => src == "/sv/b"⟩
    "g" ⟨StrictPath.new "/bk", ⟨[]⟩⟩ 0
    ⟨StrictPath.new "/sv/a", 1, none⟩ ⟨StrictPath.new "/sv/b", 2, none⟩
    ⟨"g", [⟨StrictPath.new "/sv/a", 1, none⟩, ⟨StrictPath.new "/sv/b", 2, none⟩],
      [], none⟩ rfl rfl rfl (fun x => rfl)
    (fun y =>
      (by decide : ((StrictPath.new "/sv/a").interpret env0 == "/sv/b") = false))
    (fun y =>
      (by decide : ((StrictPath.new "/sv/b").interpret env0 == "/sv/b") = true))

theorem backUpFiles_sublist (env : Env) (orc : BackupOracle) (unable : Bool)
    (tg : StrictPath) :
    ∀ (files : List ScannedFile) (m : IndividualMapping),
      ((backUpFiles env orc unable tg files m).1).Sublist files := by
  intro files
  induction files with
  | nil => intro m; simp [backUpFiles]
  | cons f fs ih =>
    intro m
    unfold backUpFiles
    split
    · exact (ih m).cons₂ f
    · dsimp only
      split
      · exact (ih _).cons₂ f
      · split
        · exact (ih _).cons₂ f
        · exact (ih _).cons f

theorem restoreFiles_sublist (env : Env) (orc : RestoreOracle)
    (redirects : List RedirectConfig) :
    ∀ (files : List ScannedFile),
      ((restoreFiles env orc redirects files).1).Sublist files := by
  intro files
  induction files with
  | nil => simp [restoreFiles]
  | cons f fs ih =>
    unfold restoreFiles
    split
    · exact ih.cons f
    · dsimp only
      split
      · exact ih.cons₂ f
      · split
        · exact ih.cons f
        · exact ih.cons₂ f

theorem sublist_size_sum_le (l1 l2 : List ScannedFile) (h : l1.Sublist l2) :
    (l1.map (fun x => x.size)).sum ≤ (l2.map (fun x => x.size)).sum := by
  induction h with
  | slnil => simp
  | cons a h ih => simp only [List.map_cons, List.sum_cons]; omega
  | cons₂ a h ih => simp only [List.map_cons, List.sum_cons]; omega

/-- C10: every failed file reported by `back_up_game` or `restore_game` is
one of the scan's found files, and consequently the failed-byte total never
exceeds the found-byte total, so the `u64` subtraction inside
`ScanInfo.sum_bytes` is exact (stated as the subtraction adding back up to
the found total). -/
theorem C10_failed_files_subset (env : Env) (orc : BackupOracle)
    (rorc : RestoreOracle) (info : ScanInfo) (name : String)
    (layout : BackupLayout) (rngStart : Nat) (redirects : List RedirectConfig) :
    (∀ f ∈ (back_up_game env orc info name layout rngStart).backup_info.failed_files,
      f ∈ info.found_files) ∧
    (∀ f ∈ (restore_game env rorc info redirects).1.failed_files,
      f ∈ info.found_files) ∧
    (info.sum_bytes (some (back_up_game env orc info name layout rngStart).backup_info) +
        (((back_up_game env orc info name layout rngStart).backup_info.failed_files).map
          (fun x => x.size)).sum =
      (info.found_files.map (fun x => x.size)).sum) ∧
    (info.sum_bytes (some (restore_game env rorc info redirects).1) +
        (((restore_game env rorc info redirects).1.failed_files).map
          (fun x => x.size)).sum =
      (info.found_files.map (fun x => x.size)).sum) := by
  have hsub1 : ((back_up_game env orc info name layout
      rngStart).backup_info.failed_files).Sublist info.found_files :=
    backUpFiles_sublist env orc _ _ info.found_files (IndividualMapping.new name)
  have hsub2 : ((restore_game env rorc info
      redirects).1.failed_files).Sublist info.found_files :=
    restoreFiles_sublist env rorc redirects info.found_files
  have hle1 := sublist_size_sum_le _ _ hsub1
  have hle2 := sublist_size_sum_le _ _ hsub2
  refine ⟨fun f hf => hsub1.subset hf, fun f hf => hsub2.subset hf, ?_, ?_⟩
  · show (info.found_files.map (fun x => x.size)).sum -
        (((back_up_game env orc info name layout rngStart).backup_info.failed_files).map
          (fun x => x.size)).sum + _ = _
    omega
  · show (info.found_files.map (fun x => x.size)).sum -
        (((restore_game env rorc info redirects).1.failed_files).map
          (fun x => x.size)).sum + _ = _
    omega

theorem strExt {a b : String} (h : a.data = b.data) : a = b := by
  cases a
  cases b
  exact congrArg String.mk h

theorem strAppend_assoc (a b c : String) : a ++ b ++ c = a ++ (b ++ c) :=
  strExt (by
    rw [strData_append, strData_append, strData_append, strData_append,
      List.append_assoc])

theorem slash_append_data (P : String) : ("/" ++ P).data = '/' :: P.data := by
  rw [strData_append]
  rfl

theorem cleanAbs_slash (P : String) (hp : cleanRel P = true) :
    CleanAbs ("/" ++ P) = true := by
  obtain ⟨_, _, _, hall⟩ := cleanRel_parts P hp
  unfold CleanAbs
  rw [slash_append_data]
  simp [hall]

theorem split_drive_slash (P : String) :
    (StrictPath.new ("/" ++ P)).split_drive = ("", P) := by
  unfold StrictPath.split_drive
  have hsw : strStartsWith (StrictPath.new ("/" ++ P)).raw "/" = true := by
    show strStartsWith ("/" ++ P) "/" = true
    unfold strStartsWith
    rw [slash_append_data]
    simp [List.isPrefixOf]
  rw [if_pos hsw]
  show ("", ofChars (("/" ++ P).data.drop 1)) = ("", P)
  rw [slash_append_data]
  show ("", ofChars P.data) = ("", P)
  rw [ofChars_data]

/-- C1 (amended): on the non-Windows build (drive designator `""`), backing
up a file originally at `/P` into a game folder `gfI` places it at
`gfI/drive-1/P`, and `restorable_files` over the saved mapping
reconstructs an `original_path` rendering exactly `/P` — provided the paths
are clean and, as the counterexample forces, the drive-directory path
`gfI/drive-1` does not reoccur inside `/P` (the source reconstructs with a
replace-all, which would also rewrite such inner occurrences). -/
theorem C1_backup_restore_roundtrip (env : Env) (gfI gname P : String) (sz : Nat)
    (hg : CleanAbs gfI = true) (hp : cleanRel P = true)
    (hocc : strContains ("/" ++ P) (gfI ++ "/" ++ "drive-1") = false) :
    (BackupLayout.game_file env (StrictPath.new gfI) (StrictPath.new ("/" ++ P))
        (IndividualMapping.new gname)).1.interpret env =
      gfI ++ "/" ++ ("drive-1" ++ "/" ++ P) ∧
    restorable_entry_files
        ⟨StrictPath.new "/",
          ⟨[(gname,
            ⟨(BackupLayout.game_file env (StrictPath.new gfI)
                (StrictPath.new ("/" ++ P)) (IndividualMapping.new gname)).2.drives,
              StrictPath.new gfI⟩)]⟩⟩
        gname gfI ("drive-1", [(P, sz)]) =
      [{ path := StrictPath.new ((gfI ++ "/" ++ "drive-1") ++ "/" ++ P), size := sz,
         original_path := some (StrictPath.new ("/" ++ P)) }] ∧
    (StrictPath.new ("/" ++ P)).render env = "/" ++ P := by
  have hsd := split_drive_slash P
  have hdfn : (IndividualMapping.new gname).drive_folder_name "" =
      ("drive-1", ⟨gname, [("drive-1", "")]⟩) := rfl
  have hgf : BackupLayout.game_file env (StrictPath.new gfI)
      (StrictPath.new ("/" ++ P)) (IndividualMapping.new gname) =
      (StrictPath.relative ("drive-1" ++ "/" ++ P)
        (some ((StrictPath.new gfI).interpret env)), ⟨gname, [("drive-1", "")]⟩) := by
    unfold BackupLayout.game_file
    rw [hsd]
    show (StrictPath.relative
        (((IndividualMapping.new gname).drive_folder_name "").1 ++ "/" ++ P)
        (some ((StrictPath.new gfI).interpret env)),
      ((IndividualMapping.new gname).drive_folder_name "").2) = _
    rw [hdfn]
  have hint : (StrictPath.new gfI).interpret env = gfI :=
    interpret_cleanAbs env gfI none hg
  have hrelClean : cleanRel ("drive-1" ++ "/" ++ P) = true :=
    cleanRel_append "drive-1" P (by decide) hp
  refine ⟨?_, ?_, render_new_cleanAbs env ("/" ++ P) (cleanAbs_slash P hp)⟩
  · rw [hgf]
    show interpretRaw env ("drive-1" ++ "/" ++ P)
      (some ((StrictPath.new gfI).interpret env)) = gfI ++ "/" ++ ("drive-1" ++ "/" ++ P)
    rw [hint]
    exact interpret_cleanRel env ("drive-1" ++ "/" ++ P) gfI hrelClean hg
  · rw [hgf]
    unfold restorable_entry_files
    have hlg : lookup_game
        [(gname, (⟨[("drive-1", "")], StrictPath.new gfI⟩ : OverallMappingGame))]
        gname = some ⟨[("drive-1", "")], StrictPath.new gfI⟩ := by
      simp [lookup_game, List.find?_cons]
    rw [show (⟨[(gname, (⟨[("drive-1", "")], StrictPath.new gfI⟩ :
        OverallMappingGame))]⟩ : OverallMapping).games =
      [(gname, (⟨[("drive-1", "")], StrictPath.new gfI⟩ : OverallMappingGame))]
      from rfl, hlg]
    show [(P, sz)].map _ = _
    rw [List.map_cons, List.map_nil]
    dsimp only
    have hrepl : replaceAll ((gfI ++ "/" ++ "drive-1") ++ "/" ++ P)
        (gfI ++ "/" ++ "drive-1") "" = "/" ++ P := by
      rw [strAppend_assoc (gfI ++ "/" ++ "drive-1") "/" P]
      exact replaceAll_prefix (gfI ++ "/" ++ "drive-1") ("/" ++ P) "" '/'
        (gfI.data.tail ++ '/' :: "drive-1".data)
        (appendSlash_data gfI "drive-1" gfI.data.tail (cleanAbs_parts gfI hg).1) hocc
    rw [hrepl]

/-- Witness for C1 at a concrete clean game folder and file path. -/
theorem C1_backup_restore_roundtrip_witness :
    (BackupLayout.game_file env0 (StrictPath.new "/backups/mygame")
        (StrictPath.new ("/" ++ "saves/slot1.dat"))
        (IndividualMapping.new "g")).1.interpret env0 =
      "/backups/mygame" ++ "/" ++ ("drive-1" ++ "/" ++ "saves/slot1.dat") ∧
    restorable_entry_files
        ⟨StrictPath.new "/",
          ⟨[("g",
            ⟨(BackupLayout.game_file env0 (StrictPath.new "/backups/mygame")
                (StrictPath.new ("/" ++ "saves/slot1.dat"))
                (IndividualMapping.new "g")).2.drives,
              StrictPath.new "/backups/mygame"⟩)]⟩⟩
        "g" "/backups/mygame" ("drive-1", [("saves/slot1.dat", 7)]) =
      [{ path := StrictPath.new (("/backups/mygame" ++ "/" ++ "drive-1") ++ "/" ++
            "saves/slot1.dat"), size := 7,
         original_path := some (StrictPath.new ("/" ++ "saves/slot1.dat")) }] ∧
    (StrictPath.new ("/" ++ "saves/slot1.dat")).render env0 = "/" ++ "saves/slot1.dat" :=
  C1_backup_restore_roundtrip env0 "/backups/mygame" "g" "saves/slot1.dat" 7
    (by decide) (by decide) (by decide)

/-- C1 counterexample: a file originally at `/bk/game/drive-1/x`, backed up
into the game folder `/bk/game`, is stored at
`/bk/game/drive-1/bk/game/drive-1/x`; restoring, the replace-all
reconstruction collapses both occurrences of the drive directory and
produces an `original_path` rendering `/x` instead of the original
`/bk/game/drive-1/x`. -/
theorem C1_backup_restore_roundtrip_cex :
    (BackupLayout.game_file env0 (StrictPath.new "/bk/game")
        (StrictPath.new "/bk/game/drive-1/x")
        (IndividualMapping.new "g")).1.interpret env0 =
      "/bk/game/drive-1/bk/game/drive-1/x" ∧
    restorable_entry_files
        ⟨StrictPath.new "/",
          ⟨[("g",
            ⟨(BackupLayout.game_file env0 (StrictPath.new "/bk/game")
                (StrictPath.new "/bk/game/drive-1/x")
                (IndividualMapping.new "g")).2.drives,
              StrictPath.new "/bk/game"⟩)]⟩⟩
        "g" "/bk/game" ("drive-1", [("bk/game/drive-1/x", 1)]) =
      [{ path := StrictPath.new "/bk/game/drive-1/bk/game/drive-1/x", size := 1,
         original_path := some (StrictPath.new "/x") }] ∧
    (StrictPath.new "/x").render env0 = "/x" ∧
    (StrictPath.new "/bk/game/drive-1/x").render env0 = "/bk/game/drive-1/x" ∧
    ("/x" : String) ≠ "/bk/game/drive-1/x" := by
  refine ⟨?_, ?_, ?_, ?_, ?_⟩ <;> decide

end Ludusavi